import Mathlib

/-!
# TinyFS: a shallow embedding of `src/tinyfs.c` with correctness proofs

This file embeds the core of the tinyfs flat-namespace file store
(`src/tinyfs.c`; `src/omin.c` and `src/minifs_2.c` are divergent draft
variants of the same program — the specified semantics, e.g. `create`
initializing `size = 0` and all `blocks[]` to the sentinel `-1`, and the
allocator scanning from `data_start`, is the one of `tinyfs.c`).

Modeling conventions:
* C `int` fields that only ever hold non-negative quantities in the modeled
  states (`size`, the region offsets, `total_blocks`) are `Nat`; values that
  are compared against the sentinel `-1` (block pointers, scan results) and
  the `free_blocks` counter are `Int`.
* Fixed-size C arrays (`inodes[MAX_INODES]`, `bitmap[TOTAL_BLOCKS]`,
  `blocks[10]`, the data region) are modeled as total maps from `Nat`
  (every access the code performs is at an in-bounds index); mutation is
  `Function.update`.
* The file-backed image: every metadata flush (`fwrite` of the superblock,
  inode table or bitmap) writes back the in-memory copy that the model
  already carries, and the code never re-reads those regions within a
  session, so the flushes are identity on the modeled state.  The data
  region, which `fs_read_file` does re-read from the backing file, is
  modeled explicitly as `disk : Nat → Nat → Nat` (block index → byte
  offset → byte value).
* File content (`const char *data`) is a `List Nat` of byte values; `strlen`
  becomes `List.length`.
* `time(NULL)` timestamps are irrelevant to every claim and are dropped from
  the record (keeping them as an opaque counter would change no statement).
-/

namespace TinyFS

set_option maxRecDepth 8192

/-- `#define BLOCK_SIZE 4096` -/
def BLOCK_SIZE : Nat := 4096

/-- `#define TOTAL_BLOCKS 1024` -/
def TOTAL_BLOCKS : Nat := 1024

/-- `#define MAX_INODES 128` -/
def MAX_INODES : Nat := 128

/-- `#define MAX_FILE_SIZE (BLOCK_SIZE * 10)` -/
def MAX_FILE_SIZE : Nat := BLOCK_SIZE * 10

/-- `MAX_FILE_SIZE / BLOCK_SIZE = 10`, the length of an inode's `blocks[]`. -/
def NUM_PTRS : Nat := MAX_FILE_SIZE / BLOCK_SIZE

/-- `sizeof(Inode)` on the LP64 platform the program targets:
32 (name) + 4 (size) + 40 (blocks) + 4 (padding to align `time_t`)
+ 8 (created) + 8 (modified) = 96 bytes. -/
def sizeofInode : Nat := 96

/-- The C `Inode` struct (timestamps dropped, see header comment).
`blocks` is the `int blocks[10]` array as a total map.  `name` models the
`char name[MAX_FILENAME]` buffer; names are at most `MAX_FILENAME - 1`
bytes (the spec's bound, enforced by the excluded CLI reading into a
`char[MAX_FILENAME]`), so `strncpy` never truncates and the buffer always
stays NUL-terminated. -/
structure Inode where
  name : String
  size : Nat
  blocks : Nat → Int

/-- The C `Superblock` struct. -/
structure Superblock where
  total_blocks : Nat
  free_blocks : Int
  block_size : Nat
  inode_table_start : Nat
  bitmap_start : Nat
  data_start : Nat

/-- The C `FileSystem` struct plus the data region of the backing image
(`disk b off` = byte `off` of block `b`). -/
structure FileSystem where
  super : Superblock
  inodes : Nat → Inode
  bitmap : Nat → Nat
  disk : Nat → Nat → Nat

/-- The all-zero inode slot produced by `memset(fs->inodes, 0, ...)`:
empty name, size 0, and `blocks[]` all zero (note: zero, not `-1`). -/
def zeroInode : Inode := { name := "", size := 0, blocks := fun _ => 0 }

/-- Helper for `scanFirst`, structurally recursive on the number
`stop - i` of indices left to inspect (so that it evaluates by kernel
reduction). -/
def scanFirstAux (p : Nat → Bool) : Nat → Nat → Int
  | 0, _ => -1
  | fuel + 1, i => if p i then (i : Int) else scanFirstAux p fuel (i + 1)

/-- Shared shape of the three linear scans in the C source
(`get_free_block`, `fs_find_inode`, and `fs_create_file`'s free-slot
search): return the first index `j` with `i ≤ j < stop` satisfying `p`,
or `-1` if none exists. -/
def scanFirst (p : Nat → Bool) (stop i : Nat) : Int :=
  scanFirstAux p (stop - i) i

/-- `get_free_block` (tinyfs.c:51-58): first free bitmap index in
`[data_start, total_blocks)`, else `-1`.  It only reads state. -/
def get_free_block (fs : FileSystem) : Int :=
  scanFirst (fun i => fs.bitmap i == 0) fs.super.total_blocks fs.super.data_start

/-- `set_block` (tinyfs.c:60-63): bounds-checked bitmap write;
out-of-range indices are a no-op. -/
def set_block (fs : FileSystem) (block : Int) (value : Nat) : FileSystem :=
  if block < 0 ∨ (TOTAL_BLOCKS : Int) ≤ block then fs
  else { fs with bitmap := Function.update fs.bitmap block.toNat value }

/-- `fs_find_inode` (tinyfs.c:148-155): first slot with a non-empty name
equal to `name`, else `-1`. -/
def fs_find_inode (fs : FileSystem) (name : String) : Int :=
  scanFirst (fun i => ((fs.inodes i).name != "") && ((fs.inodes i).name == name))
    MAX_INODES 0

/-- The format path of `fs_init` (tinyfs.c:83-117): superblock layout
computation, zeroed inode table, zeroed bitmap with block 0 reserved via
`set_block`, zero-filled data region. -/
def fs_init : FileSystem :=
  let inode_table_start : Nat := 1
  let itBytes : Nat := sizeofInode * MAX_INODES
  let bitmap_start : Nat :=
    inode_table_start + itBytes / BLOCK_SIZE + (if itBytes % BLOCK_SIZE ≠ 0 then 1 else 0)
  let bmBytes : Nat := TOTAL_BLOCKS
  let data_start : Nat :=
    bitmap_start + bmBytes / BLOCK_SIZE + (if bmBytes % BLOCK_SIZE ≠ 0 then 1 else 0)
  set_block
    { super :=
        { total_blocks := TOTAL_BLOCKS
          free_blocks := (TOTAL_BLOCKS : Int) - 1
          block_size := BLOCK_SIZE
          inode_table_start := inode_table_start
          bitmap_start := bitmap_start
          data_start := data_start }
      inodes := fun _ => zeroInode
      bitmap := fun _ => 0
      disk := fun _ _ => 0 }
    0 1

/-- `fs_create_file` (tinyfs.c:158-191).  Returns the C return value
(inode number or `-1`) together with the resulting state. -/
def fs_create_file (fs : FileSystem) (name : String) : Int × FileSystem :=
  if fs_find_inode fs name ≠ -1 then (-1, fs)
  else
    let inode_num := scanFirst (fun i => (fs.inodes i).name == "") MAX_INODES 0
    if inode_num = -1 then (-1, fs)
    else
      (inode_num,
        { fs with
            inodes := Function.update fs.inodes inode_num.toNat
              { name := name, size := 0, blocks := fun _ => -1 } })

/-- The body of one successful allocation in `fs_write_file`'s loop
(tinyfs.c:219-229): attach the first free block at ordinal position `i`,
mark it used via `set_block`, decrement `free_blocks` (the bitmap and
superblock flushes write back the in-memory copies the model already
carries). -/
def allocStep (fs : FileSystem) (inum i : Nat) : FileSystem :=
  let ino := fs.inodes inum
  let block := get_free_block fs
  let fs1 :=
    { fs with
        inodes := Function.update fs.inodes inum
          { ino with blocks := Function.update ino.blocks i block } }
  let fs2 := set_block fs1 block 1
  { fs2 with super := { fs2.super with free_blocks := fs2.super.free_blocks - 1 } }

/-- The block-allocation loop of `fs_write_file` (tinyfs.c:212-231), over
the list of ordinal positions `0..blocks_needed-1`.  A position whose entry
is not the sentinel `-1` is reused in place.  On `NoFreeBlock` the loop
stops, returning `false` together with the state mutated so far (no
rollback). -/
def allocBlocks : FileSystem → Nat → List Nat → Bool × FileSystem
  | fs, _, [] => (true, fs)
  | fs, inum, i :: rest =>
    if (fs.inodes inum).blocks i = -1 then
      if get_free_block fs = -1 then (false, fs)
      else allocBlocks (allocStep fs inum i) inum rest
    else allocBlocks fs inum rest

/-- One block write of the data loop (tinyfs.c:237-242): the C code zeroes a
`BLOCK_SIZE` buffer, copies the chunk into it and writes the whole buffer,
so the block's new content is the chunk padded with zero bytes. -/
def writeChunk (disk : Nat → Nat → Nat) (b : Nat) (chunk : List Nat) : Nat → Nat → Nat :=
  fun b' off => if b' = b then chunk.getD off 0 else disk b' off

/-- The data-writing loop of `fs_write_file` (tinyfs.c:234-244): for each
ordinal position, skip the sentinel, else copy
`min(remaining, BLOCK_SIZE)` bytes from `data + i*BLOCK_SIZE` and write
the zero-padded block; `data_len` carries the remaining byte count. -/
def writeDataBlocks : FileSystem → Nat → List Nat → Nat → List Nat → FileSystem
  | fs, _, _, _, [] => fs
  | fs, inum, data, data_len, i :: rest =>
    let block := (fs.inodes inum).blocks i
    if block = -1 then writeDataBlocks fs inum data data_len rest
    else
      let copy_len := min data_len BLOCK_SIZE
      let chunk := (data.drop (i * BLOCK_SIZE)).take copy_len
      writeDataBlocks
        { fs with disk := writeChunk fs.disk block.toNat chunk }
        inum data (data_len - copy_len) rest

/-- `fs_write_file` (tinyfs.c:194-257).  Returns the C return value
(0 success, `-1` failure) with the resulting state. -/
def fs_write_file (fs : FileSystem) (name : String) (data : List Nat) : Int × FileSystem :=
  let inode_num := fs_find_inode fs name
  if inode_num = -1 then (-1, fs)
  else
    let data_len := data.length
    if MAX_FILE_SIZE < data_len then (-1, fs)
    else
      let blocks_needed := (data_len + BLOCK_SIZE - 1) / BLOCK_SIZE
      match allocBlocks fs inode_num.toNat (List.range blocks_needed) with
      | (false, fs1) => (-1, fs1)
      | (true, fs1) =>
        let fs2 := writeDataBlocks fs1 inode_num.toNat data data_len (List.range blocks_needed)
        let ino := fs2.inodes inode_num.toNat
        (0, { fs2 with
                inodes := Function.update fs2.inodes inode_num.toNat
                  { ino with size := data_len } })

/-- The read loop of `fs_read_file` (tinyfs.c:280-290): walk ordinal
positions while `bytes_read < size`, stop at the first sentinel,
concatenating `min(size - bytes_read, BLOCK_SIZE)` bytes of each block. -/
def readLoop : FileSystem → Inode → Nat → List Nat → List Nat
  | _, _, _, [] => []
  | fs, ino, bytes_read, i :: rest =>
    if bytes_read < ino.size then
      let block := ino.blocks i
      if block = -1 then []
      else
        let copy_len := min (ino.size - bytes_read) BLOCK_SIZE
        ((List.range copy_len).map (fun off => fs.disk block.toNat off)) ++
          readLoop fs ino (bytes_read + copy_len) rest
    else []

/-- `fs_read_file` (tinyfs.c:260-295).  The C function prints the bytes it
collected; the model returns them (`none` = `NotFound`, `some []` = the
empty-file early return). -/
def fs_read_file (fs : FileSystem) (name : String) : Option (List Nat) :=
  let inode_num := fs_find_inode fs name
  if inode_num = -1 then none
  else
    let ino := fs.inodes inode_num.toNat
    if ino.size = 0 then some []
    else some (readLoop fs ino 0 (List.range NUM_PTRS))

/-- `fs_list_files` (tinyfs.c:298-305): the `(name, size)` pairs of the
non-empty slots in table order; read-only. -/
def fs_list_files (fs : FileSystem) : List (String × Nat) :=
  ((List.range MAX_INODES).filter (fun i => (fs.inodes i).name != "")).map
    (fun i => ((fs.inodes i).name, (fs.inodes i).size))

/-- The operations a session exposes (the menu loop of `main`). -/
inductive Op where
  | create (name : String)
  | write (name : String) (data : List Nat)
  | read (name : String)
  | list

/-- State transition of one operation (`fs_read_file` and `fs_list_files`
only read the state). -/
def step (fs : FileSystem) : Op → FileSystem
  | .create n => (fs_create_file fs n).2
  | .write n d => (fs_write_file fs n d).2
  | .read _ => fs
  | .list => fs

/-- Running a sequence of operations from a state. -/
def run (fs : FileSystem) : List Op → FileSystem
  | [] => fs
  | op :: ops => run (step fs op) ops

/-! ## Properties of the linear scans -/

theorem scanFirstAux_eq_neg_iff (p : Nat → Bool) :
    ∀ fuel i, scanFirstAux p fuel i = -1 ↔ ∀ j, i ≤ j → j < i + fuel → p j = false := by
  intro fuel
  induction fuel with
  | zero =>
    intro i
    constructor
    · intro _ j h1 h2; omega
    · intro _; rfl
  | succ fuel ih =>
    intro i
    simp only [scanFirstAux]
    by_cases hp : p i
    · rw [if_pos hp]
      constructor
      · intro h; exact absurd h (by omega)
      · intro h
        have := h i (Nat.le_refl i) (by omega)
        rw [hp] at this
        exact absurd this (by simp)
    · simp only [Bool.not_eq_true] at hp
      rw [if_neg (by simp [hp]), ih (i + 1)]
      constructor
      · intro h j h1 h2
        by_cases hji : j = i
        · rw [hji]; exact hp
        · exact h j (by omega) (by omega)
      · intro h j h1 h2
        exact h j (by omega) (by omega)

theorem scanFirstAux_eq_some (p : Nat → Bool) :
    ∀ fuel i (b : Nat), scanFirstAux p fuel i = (b : Int) →
      i ≤ b ∧ b < i + fuel ∧ p b = true ∧ ∀ j, i ≤ j → j < b → p j = false := by
  intro fuel
  induction fuel with
  | zero =>
    intro i b h
    simp only [scanFirstAux] at h
    exact absurd h (by omega)
  | succ fuel ih =>
    intro i b h
    simp only [scanFirstAux] at h
    by_cases hp : p i
    · rw [if_pos hp] at h
      have hib : i = b := by omega
      subst hib
      exact ⟨Nat.le_refl i, by omega, hp, fun j h1 h2 => by omega⟩
    · simp only [Bool.not_eq_true] at hp
      rw [if_neg (by simp [hp])] at h
      obtain ⟨h1, h2, h3, h4⟩ := ih (i + 1) b h
      refine ⟨by omega, by omega, h3, fun j hj1 hj2 => ?_⟩
      by_cases hji : j = i
      · rw [hji]; exact hp
      · exact h4 j (by omega) hj2

theorem scanFirstAux_cases (p : Nat → Bool) :
    ∀ fuel i, scanFirstAux p fuel i = -1 ∨ ∃ b : Nat, scanFirstAux p fuel i = (b : Int) := by
  intro fuel
  induction fuel with
  | zero => intro i; left; rfl
  | succ fuel ih =>
    intro i
    simp only [scanFirstAux]
    by_cases hp : p i
    · right; exact ⟨i, by simp [hp]⟩
    · rw [if_neg hp]; exact ih (i + 1)

theorem scanFirstAux_eq_of (p : Nat → Bool) :
    ∀ fuel i (b : Nat), i ≤ b → b < i + fuel → p b = true →
      (∀ j, i ≤ j → j < b → p j = false) → scanFirstAux p fuel i = (b : Int) := by
  intro fuel
  induction fuel with
  | zero => intro i b h1 h2; omega
  | succ fuel ih =>
    intro i b h1 h2 hb hmin
    simp only [scanFirstAux]
    by_cases hib : i = b
    · subst hib; rw [if_pos hb]
    · rw [if_neg (by rw [hmin i (Nat.le_refl i) (by omega)]; exact Bool.false_ne_true)]
      exact ih (i + 1) b (by omega) (by omega) hb (fun j hj1 hj2 => hmin j (by omega) hj2)

theorem scanFirstAux_congr (p q : Nat → Bool) :
    ∀ fuel i, (∀ j, i ≤ j → j < i + fuel → p j = q j) →
      scanFirstAux p fuel i = scanFirstAux q fuel i := by
  intro fuel
  induction fuel with
  | zero => intro i _; rfl
  | succ fuel ih =>
    intro i h
    simp only [scanFirstAux]
    rw [h i (Nat.le_refl i) (by omega), ih (i + 1) (fun j h1 h2 => h j (by omega) (by omega))]

theorem scanFirst_eq_neg_iff (p : Nat → Bool) (stop i : Nat) :
    scanFirst p stop i = -1 ↔ ∀ j, i ≤ j → j < stop → p j = false := by
  unfold scanFirst
  rw [scanFirstAux_eq_neg_iff]
  constructor
  · intro h j h1 h2; exact h j h1 (by omega)
  · intro h j h1 h2; exact h j h1 (by omega)

theorem scanFirst_eq_some (p : Nat → Bool) (stop i b : Nat)
    (h : scanFirst p stop i = (b : Int)) :
    i ≤ b ∧ b < stop ∧ p b = true ∧ ∀ j, i ≤ j → j < b → p j = false := by
  obtain ⟨h1, h2, h3, h4⟩ := scanFirstAux_eq_some p _ _ _ h
  exact ⟨h1, by omega, h3, h4⟩

theorem scanFirst_cases (p : Nat → Bool) (stop i : Nat) :
    scanFirst p stop i = -1 ∨
      ∃ b : Nat, scanFirst p stop i = (b : Int) ∧ i ≤ b ∧ b < stop ∧ p b = true ∧
        ∀ j, i ≤ j → j < b → p j = false := by
  rcases scanFirstAux_cases p (stop - i) i with h | ⟨b, h⟩
  · left; exact h
  · right
    refine ⟨b, h, ?_⟩
    obtain ⟨h1, h2, h3, h4⟩ := scanFirst_eq_some p stop i b h
    exact ⟨h1, h2, h3, h4⟩

theorem scanFirst_eq_of (p : Nat → Bool) (stop i b : Nat) (h1 : i ≤ b) (h2 : b < stop)
    (hb : p b = true) (hmin : ∀ j, i ≤ j → j < b → p j = false) :
    scanFirst p stop i = (b : Int) :=
  scanFirstAux_eq_of p (stop - i) i b h1 (by omega) hb hmin

theorem scanFirst_congr (p q : Nat → Bool) (stop i : Nat)
    (h : ∀ j, i ≤ j → j < stop → p j = q j) :
    scanFirst p stop i = scanFirst q stop i :=
  scanFirstAux_congr p q (stop - i) i (fun j h1 h2 => h j h1 (by omega))

theorem scanFirst_nonneg_of_ne_neg (p : Nat → Bool) (stop i : Nat)
    (h : scanFirst p stop i ≠ -1) :
    ∃ b : Nat, scanFirst p stop i = (b : Int) ∧ i ≤ b ∧ b < stop ∧ p b = true ∧
      ∀ j, i ≤ j → j < b → p j = false := by
  rcases scanFirst_cases p stop i with hc | hc
  · exact absurd hc h
  · exact hc

/-! ## The allocator -/

theorem get_free_block_eq_some (fs : FileSystem) (b : Nat)
    (h : get_free_block fs = (b : Int)) :
    fs.super.data_start ≤ b ∧ b < fs.super.total_blocks ∧ fs.bitmap b = 0 ∧
      ∀ j, fs.super.data_start ≤ j → j < b → fs.bitmap j ≠ 0 := by
  obtain ⟨h1, h2, h3, h4⟩ := scanFirst_eq_some _ _ _ _ h
  refine ⟨h1, h2, by simpa using h3, fun j hj1 hj2 => ?_⟩
  have := h4 j hj1 hj2
  simpa using this

theorem get_free_block_ne_neg (fs : FileSystem) (h : get_free_block fs ≠ -1) :
    ∃ b : Nat, get_free_block fs = (b : Int) ∧ fs.super.data_start ≤ b ∧
      b < fs.super.total_blocks ∧ fs.bitmap b = 0 := by
  obtain ⟨b, hb, h1, h2, h3, _⟩ := scanFirst_nonneg_of_ne_neg _ _ _ h
  exact ⟨b, hb, h1, h2, by simpa using h3⟩

/-- A state whose bitmap marks every block used (for exercising the
`NoFreeBlock` branch of the allocator). -/
def fullUsed : FileSystem := { fs_init with bitmap := fun _ => 1 }

/-- C7: `get_free_block` returns the smallest free index in
`[data_start, total_blocks)`; it never returns a used index; and when the
whole range is used it returns `-1` (`NoFreeBlock`).  The embedding's
`get_free_block : FileSystem → Int` returns only the scanned index, which
is the shallow rendering of "pure read, does not mutate any state". -/
theorem claim_C7_allocator_spec (fs : FileSystem) :
    (∀ b : Nat, get_free_block fs = (b : Int) →
      fs.super.data_start ≤ b ∧ b < fs.super.total_blocks ∧ fs.bitmap b = 0 ∧
        ∀ j, fs.super.data_start ≤ j → j < b → fs.bitmap j ≠ 0) ∧
    ((∀ j, fs.super.data_start ≤ j → j < fs.super.total_blocks → fs.bitmap j ≠ 0) →
      get_free_block fs = -1) ∧
    (get_free_block fs = -1 →
      ∀ j, fs.super.data_start ≤ j → j < fs.super.total_blocks → fs.bitmap j ≠ 0) := by
  refine ⟨get_free_block_eq_some fs, ?_, ?_⟩
  · intro h
    rw [get_free_block, scanFirst_eq_neg_iff]
    intro j h1 h2
    simpa using h j h1 h2
  · intro h j h1 h2
    rw [get_free_block, scanFirst_eq_neg_iff] at h
    simpa using h j h1 h2

/-- Witness for C7: on the formatted image the allocator returns block 5,
whose bitmap entry is free; on a fully used bitmap it returns `-1`. -/
theorem claim_C7_witness :
    get_free_block fullUsed = -1 ∧ fs_init.bitmap 5 = 0 :=
  ⟨(claim_C7_allocator_spec fullUsed).2.1 (fun j h1 h2 => Nat.one_ne_zero),
   ((claim_C7_allocator_spec fs_init).1 5 (by decide)).2.2.1⟩

/-- C5: after format, bitmap entry 0 is used (value 1), entries
`1..total_blocks-1` are free (value 0), and `free_blocks = total_blocks - 1`. -/
theorem claim_C5_format_bitmap :
    fs_init.bitmap 0 = 1 ∧
    (∀ i, 1 ≤ i → i < fs_init.super.total_blocks → fs_init.bitmap i = 0) ∧
    fs_init.super.free_blocks = (fs_init.super.total_blocks : Int) - 1 := by
  refine ⟨by decide, ?_, by decide⟩
  intro i h1 _
  have hbm : fs_init.bitmap = Function.update (fun _ => 0) (0 : Nat) 1 := rfl
  rw [hbm, Function.update_noteq (by omega)]

/-- Witness for C5: entry 7 of the formatted bitmap is free. -/
theorem claim_C5_witness : fs_init.bitmap 7 = 0 :=
  claim_C5_format_bitmap.2.1 7 (by decide) (by decide)

/-- C6: the layout computed by the format path satisfies the ceiling
formulas `bitmap_start = inode_table_start + ceil(inode_table_bytes /
block_size)`, `data_start = bitmap_start + ceil(bitmap_bytes / block_size)`
(with `inode_table_bytes = sizeof(Inode) * MAX_INODES` and `bitmap_bytes =
TOTAL_BLOCKS`), and the ordering `inode_table_start < bitmap_start <
data_start ≤ total_blocks`. -/
theorem claim_C6_format_layout :
    fs_init.super.inode_table_start = 1 ∧
    fs_init.super.bitmap_start =
      fs_init.super.inode_table_start + (sizeofInode * MAX_INODES + BLOCK_SIZE - 1) / BLOCK_SIZE ∧
    fs_init.super.data_start =
      fs_init.super.bitmap_start + (TOTAL_BLOCKS + BLOCK_SIZE - 1) / BLOCK_SIZE ∧
    fs_init.super.inode_table_start < fs_init.super.bitmap_start ∧
    fs_init.super.bitmap_start < fs_init.super.data_start ∧
    fs_init.super.data_start ≤ fs_init.super.total_blocks := by
  refine ⟨rfl, by decide, by decide, by decide, by decide, by decide⟩

/-! ## Name lookup and file creation -/

theorem fs_find_inode_eq_neg_iff (fs : FileSystem) (name : String) :
    fs_find_inode fs name = -1 ↔
      ∀ i, i < MAX_INODES → ((fs.inodes i).name = "" ∨ (fs.inodes i).name ≠ name) := by
  rw [fs_find_inode, scanFirst_eq_neg_iff]
  constructor
  · intro h i hi
    have := h i (Nat.zero_le i) hi
    simpa [Bool.and_eq_false_iff, or_iff_not_imp_left] using this
  · intro h i _ hi
    have := h i hi
    simp only [Bool.and_eq_false_iff, bne_eq_false_iff_eq, beq_eq_false_iff_ne]
    tauto

theorem fs_find_inode_eq_some (fs : FileSystem) (name : String) (k : Nat)
    (h : fs_find_inode fs name = (k : Int)) :
    k < MAX_INODES ∧ (fs.inodes k).name ≠ "" ∧ (fs.inodes k).name = name := by
  obtain ⟨_, h2, h3, _⟩ := scanFirst_eq_some _ _ _ _ h
  refine ⟨h2, ?_, ?_⟩
  · simpa using (Bool.and_elim_left h3)
  · simpa using (Bool.and_elim_right h3)

theorem fs_find_inode_cases (fs : FileSystem) (name : String) :
    fs_find_inode fs name = -1 ∨
      ∃ k : Nat, fs_find_inode fs name = (k : Int) ∧ k < MAX_INODES ∧
        (fs.inodes k).name ≠ "" ∧ (fs.inodes k).name = name := by
  rcases scanFirst_cases (fun i => ((fs.inodes i).name != "") && ((fs.inodes i).name == name))
      MAX_INODES 0 with h | ⟨b, hb, _, h2, h3, _⟩
  · left; exact h
  · right
    refine ⟨b, hb, h2, ?_, ?_⟩
    · simpa using (Bool.and_elim_left h3)
    · simpa using (Bool.and_elim_right h3)

theorem fs_find_inode_ne_neg (fs : FileSystem) (name : String) (i : Nat)
    (hi : i < MAX_INODES) (hne : (fs.inodes i).name ≠ "") (heq : (fs.inodes i).name = name) :
    fs_find_inode fs name ≠ -1 := by
  intro h
  rcases (fs_find_inode_eq_neg_iff fs name).mp h i hi with hc | hc
  · exact hne hc
  · exact hc heq

/-- C2 (amended: the post-`create` lookup clause additionally requires
`name` to be non-empty — for the empty name, `create` picks a free slot and
stores the empty name, which leaves the slot free and invisible to
`findByName`, see `claim_C2_counterexample`): `create` on a name held by
some non-empty slot fails with `-1` (`AlreadyExists`) and returns the state
unchanged (in particular the inode table is byte-for-byte unchanged);
otherwise, if a free slot exists and `name ≠ ""`, `create` succeeds and
the slot that `fs_find_inode` then finds has `size = 0` and all ten
`blocks[]` entries equal to the sentinel `-1`. -/
theorem claim_C2_create_semantics (fs : FileSystem) (name : String) :
    ((∃ i, i < MAX_INODES ∧ (fs.inodes i).name ≠ "" ∧ (fs.inodes i).name = name) →
      fs_create_file fs name = (-1, fs)) ∧
    (fs_find_inode fs name = -1 → name ≠ "" →
      (∃ i, i < MAX_INODES ∧ (fs.inodes i).name = "") →
      ∃ k : Nat, (fs_create_file fs name).1 = (k : Int) ∧
        fs_find_inode (fs_create_file fs name).2 name = (k : Int) ∧
        ((fs_create_file fs name).2.inodes k).size = 0 ∧
        ∀ j, j < NUM_PTRS → ((fs_create_file fs name).2.inodes k).blocks j = -1) := by
  constructor
  · rintro ⟨i, hi, hne, heq⟩
    rw [fs_create_file, if_pos (fs_find_inode_ne_neg fs name i hi hne heq)]
  · intro hfind hname hfree
    have hcond : ¬fs_find_inode fs name ≠ -1 := fun hc => hc hfind
    rcases scanFirst_cases (fun i => (fs.inodes i).name == "") MAX_INODES 0 with
      hs | ⟨b, hb, _, hblt, hbp, hbmin⟩
    · exfalso
      obtain ⟨i, hi, hiname⟩ := hfree
      have := (scanFirst_eq_neg_iff _ _ _).mp hs i (Nat.zero_le i) hi
      rw [hiname] at this
      simp at this
    · have hbname : (fs.inodes b).name = "" := by simpa using hbp
      have hC : fs_create_file fs name =
          ((b : Int),
            { fs with
                inodes := Function.update fs.inodes b
                  { name := name, size := 0, blocks := fun _ => -1 } }) := by
        rw [fs_create_file, if_neg hcond]
        simp only [hb]
        rw [if_neg (by omega)]
        simp [Int.toNat_ofNat]
      refine ⟨b, by rw [hC], ?_, ?_, ?_⟩
      · rw [hC]
        apply scanFirst_eq_of _ _ _ _ (Nat.zero_le b) hblt
        · simp [Function.update_same, hname]
        · intro j _ hj
          dsimp only
          rw [Function.update_noteq (show j ≠ b by omega)]
          have := (fs_find_inode_eq_neg_iff fs name).mp hfind j (by omega)
          simp only [Bool.and_eq_false_iff, bne_eq_false_iff_eq, beq_eq_false_iff_ne]
          tauto
      · rw [hC]; simp [Function.update_same]
      · intro j _
        rw [hC]; simp [Function.update_same]

/-- Counterexample to C2 as stated, at `name = ""` on the freshly formatted
state: no slot holds `""` and free slots exist, `create` returns slot 0
(no `AlreadyExists` or `NoFreeInode` failure), yet the lookup after the
create finds no slot at all, so "the slot found by findByName(name) has
size == 0 and all blocks[] at the sentinel" fails. -/
theorem claim_C2_counterexample :
    fs_find_inode fs_init "" = -1 ∧
    (∃ i, i < MAX_INODES ∧ (fs_init.inodes i).name = "") ∧
    (fs_create_file fs_init "").1 = 0 ∧
    fs_find_inode (fs_create_file fs_init "").2 "" = -1 :=
  ⟨by decide, ⟨0, by decide, by decide⟩, by decide, by decide⟩

/-- State with one file `"a"` created on the formatted image. -/
def stateA : FileSystem := (fs_create_file fs_init "a").2

/-- Witness for C2: on `stateA`, creating `"a"` again fails and leaves the
state unchanged; creating `"b"` succeeds and the found slot is fresh. -/
theorem claim_C2_witness :
    fs_create_file stateA "a" = (-1, stateA) ∧
    ∃ k : Nat, (fs_create_file stateA "b").1 = (k : Int) ∧
      fs_find_inode (fs_create_file stateA "b").2 "b" = (k : Int) ∧
      ((fs_create_file stateA "b").2.inodes k).size = 0 ∧
      ∀ j, j < NUM_PTRS → ((fs_create_file stateA "b").2.inodes k).blocks j = -1 :=
  ⟨(claim_C2_create_semantics stateA "a").1 ⟨0, by decide, by decide, by decide⟩,
   (claim_C2_create_semantics stateA "b").2 (by decide) (by decide) ⟨1, by decide, by decide⟩⟩

/-! ## The allocation loop -/

theorem set_block_inodes (fs : FileSystem) (b : Int) (v : Nat) :
    (set_block fs b v).inodes = fs.inodes := by
  rw [set_block]; split <;> rfl

theorem set_block_super (fs : FileSystem) (b : Int) (v : Nat) :
    (set_block fs b v).super = fs.super := by
  rw [set_block]; split <;> rfl

theorem set_block_disk (fs : FileSystem) (b : Int) (v : Nat) :
    (set_block fs b v).disk = fs.disk := by
  rw [set_block]; split <;> rfl

theorem set_block_bitmap_ne (fs : FileSystem) (b : Int) (x : Nat)
    (h : fs.bitmap x ≠ 0) : (set_block fs b 1).bitmap x ≠ 0 := by
  rw [set_block]
  split
  · exact h
  · dsimp only
    by_cases hx : x = b.toNat
    · subst hx; rw [Function.update_same]; exact Nat.one_ne_zero
    · rw [Function.update_noteq hx]; exact h

theorem set_block_bitmap_mark (fs : FileSystem) (b : Int) (h0 : 0 ≤ b)
    (hT : b < (TOTAL_BLOCKS : Int)) : (set_block fs b 1).bitmap b.toNat = 1 := by
  rw [set_block, if_neg (by omega)]
  exact Function.update_same b.toNat 1 fs.bitmap

/-- Number of ordinal positions of slot `inum` that went from the sentinel
`-1` in `fs` to a real block index in `fs2` (the blocks newly allocated
between the two states). -/
def countNew (fs fs2 : FileSystem) (inum : Nat) : Nat :=
  ((List.range NUM_PTRS).filter
    (fun j => ((fs.inodes inum).blocks j == -1) && ((fs2.inodes inum).blocks j != -1))).length

theorem countNew_self (fs : FileSystem) (inum : Nat) : countNew fs fs inum = 0 := by
  rw [countNew]
  have h : ∀ j ∈ List.range NUM_PTRS,
      ¬(((fs.inodes inum).blocks j == -1) && ((fs.inodes inum).blocks j != -1)) = true := by
    intro j _
    by_cases hj : (fs.inodes inum).blocks j = -1 <;> simp [hj]
  rw [List.filter_eq_nil_iff.mpr h]
  rfl

theorem filter_length_succ_of_mem {l : List Nat} {p q : Nat → Bool} {i : Nat}
    (hmem : i ∈ l) (hnd : l.Nodup) (hp : p i = true) (hq : q i = false)
    (hagree : ∀ j ∈ l, j ≠ i → p j = q j) :
    (l.filter p).length = (l.filter q).length + 1 := by
  induction l with
  | nil => cases hmem
  | cons a t ih =>
    have hnda : a ∉ t := (List.nodup_cons.mp hnd).1
    have hndt : t.Nodup := (List.nodup_cons.mp hnd).2
    by_cases hia : i = a
    · subst hia
      have hfilter : t.filter p = t.filter q := by
        apply List.filter_congr
        intro j hj
        exact hagree j (List.mem_cons_of_mem i hj) (fun hji => hnda (hji ▸ hj))
      rw [List.filter_cons, List.filter_cons, if_pos (by simp [hp]), if_neg (by simp [hq]),
        hfilter]
      simp
    · have hmem2 : i ∈ t := by
        rcases List.mem_cons.mp hmem with h | h
        · exact absurd h hia
        · exact h
      have hai : a ≠ i := fun h => hia h.symm
      have hpa : p a = q a := hagree a (List.mem_cons_self a t) hai
      have hrec := ih hmem2 hndt (fun j hj hji => hagree j (List.mem_cons_of_mem a hj) hji)
      rw [List.filter_cons, List.filter_cons, ← hpa]
      by_cases hc : p a = true
      · rw [if_pos (by simp [hc]), if_pos (by simp [hc])]
        simpa using hrec
      · rw [if_neg (by simpa using hc), if_neg (by simpa using hc)]
        exact hrec

theorem allocStep_inodes (fs : FileSystem) (inum i : Nat) :
    (allocStep fs inum i).inodes =
      Function.update fs.inodes inum
        { fs.inodes inum with
            blocks := Function.update (fs.inodes inum).blocks i (get_free_block fs) } := by
  rw [allocStep]
  dsimp only
  rw [set_block_inodes]

theorem allocStep_super (fs : FileSystem) (inum i : Nat) :
    (allocStep fs inum i).super =
      { fs.super with free_blocks := fs.super.free_blocks - 1 } := by
  rw [allocStep]
  dsimp only
  rw [set_block_super]

theorem allocStep_disk (fs : FileSystem) (inum i : Nat) :
    (allocStep fs inum i).disk = fs.disk := by
  rw [allocStep]
  dsimp only
  rw [set_block_disk]

theorem allocStep_blocks_self (fs : FileSystem) (inum i : Nat) :
    ((allocStep fs inum i).inodes inum).blocks i = get_free_block fs := by
  rw [allocStep_inodes, Function.update_same]
  exact Function.update_same i (get_free_block fs) (fs.inodes inum).blocks

theorem allocStep_blocks_other (fs : FileSystem) (inum i j : Nat) (hj : j ≠ i) :
    ((allocStep fs inum i).inodes inum).blocks j = (fs.inodes inum).blocks j := by
  rw [allocStep_inodes, Function.update_same]
  exact Function.update_noteq hj (get_free_block fs) (fs.inodes inum).blocks

theorem allocStep_inodes_other (fs : FileSystem) (inum i p : Nat) (hp : p ≠ inum) :
    (allocStep fs inum i).inodes p = fs.inodes p := by
  rw [allocStep_inodes]
  exact Function.update_noteq hp _ fs.inodes

theorem allocStep_name (fs : FileSystem) (inum i : Nat) :
    ((allocStep fs inum i).inodes inum).name = (fs.inodes inum).name := by
  rw [allocStep_inodes, Function.update_same]

theorem allocStep_size (fs : FileSystem) (inum i : Nat) :
    ((allocStep fs inum i).inodes inum).size = (fs.inodes inum).size := by
  rw [allocStep_inodes, Function.update_same]

theorem allocStep_bitmap_ne (fs : FileSystem) (inum i : Nat) (x : Nat)
    (h : fs.bitmap x ≠ 0) : (allocStep fs inum i).bitmap x ≠ 0 := by
  rw [allocStep]
  dsimp only
  exact set_block_bitmap_ne _ _ _ h

theorem allocStep_bitmap_mark (fs : FileSystem) (inum i : Nat) (bn : Nat)
    (hbn : get_free_block fs = (bn : Int)) (hlt : bn < fs.super.total_blocks)
    (htb : fs.super.total_blocks ≤ TOTAL_BLOCKS) :
    (allocStep fs inum i).bitmap bn = 1 := by
  rw [allocStep]
  dsimp only
  rw [hbn]
  have h := set_block_bitmap_mark
    { fs with
        inodes := Function.update fs.inodes inum
          { fs.inodes inum with
              blocks := Function.update (fs.inodes inum).blocks i ((bn : Int)) } }
    ((bn : Int)) (by omega) (by omega)
  simpa using h

/-- Bundled facts about a run of the allocation loop that need no
reachability assumption: entries never lose an attached block, other slots
and the data region are untouched, the bitmap only gains used marks, every
newly attached block is marked used (given the real `total_blocks` bound),
`free_blocks` drops by exactly the number of newly attached blocks, and on
success every requested position holds a block. -/
theorem allocBlocks_facts (inum : Nat) :
    ∀ (l : List Nat) (fs : FileSystem),
      (∀ p j, (fs.inodes p).blocks j ≠ -1 →
        ((allocBlocks fs inum l).2.inodes p).blocks j = (fs.inodes p).blocks j) ∧
      (∀ p, p ≠ inum → (allocBlocks fs inum l).2.inodes p = fs.inodes p) ∧
      ((allocBlocks fs inum l).2.inodes inum).name = (fs.inodes inum).name ∧
      ((allocBlocks fs inum l).2.inodes inum).size = (fs.inodes inum).size ∧
      (∀ x, fs.bitmap x ≠ 0 → (allocBlocks fs inum l).2.bitmap x ≠ 0) ∧
      (allocBlocks fs inum l).2.super.total_blocks = fs.super.total_blocks ∧
      (allocBlocks fs inum l).2.super.data_start = fs.super.data_start ∧
      (allocBlocks fs inum l).2.super.block_size = fs.super.block_size ∧
      (allocBlocks fs inum l).2.super.inode_table_start = fs.super.inode_table_start ∧
      (allocBlocks fs inum l).2.super.bitmap_start = fs.super.bitmap_start ∧
      ((∀ x ∈ l, x < NUM_PTRS) →
        fs.super.free_blocks - (allocBlocks fs inum l).2.super.free_blocks =
          (countNew fs (allocBlocks fs inum l).2 inum : Int)) ∧
      (∀ j, j ∉ l →
        ((allocBlocks fs inum l).2.inodes inum).blocks j = (fs.inodes inum).blocks j) ∧
      ((allocBlocks fs inum l).1 = true →
        ∀ j ∈ l, ((allocBlocks fs inum l).2.inodes inum).blocks j ≠ -1) ∧
      (fs.super.total_blocks ≤ TOTAL_BLOCKS →
        ∀ j, (fs.inodes inum).blocks j = -1 →
          ((allocBlocks fs inum l).2.inodes inum).blocks j ≠ -1 →
          (allocBlocks fs inum l).2.bitmap
            (((allocBlocks fs inum l).2.inodes inum).blocks j).toNat ≠ 0) ∧
      (allocBlocks fs inum l).2.disk = fs.disk := by
  intro l
  induction l with
  | nil =>
    intro fs
    refine ⟨fun p j _ => rfl, fun p _ => rfl, rfl, rfl, fun x h => h,
      rfl, rfl, rfl, rfl, rfl, ?_, fun j _ => rfl, ?_, ?_, rfl⟩
    · intro _
      show fs.super.free_blocks - fs.super.free_blocks = (countNew fs fs inum : Int)
      rw [countNew_self]
      simp
    · intro _ j hj
      cases hj
    · intro _ j h1 h2
      exact absurd h1 h2
  | cons i rest ih =>
    intro fs
    by_cases halloc : (fs.inodes inum).blocks i = -1
    · by_cases hnb : get_free_block fs = -1
      · have hstep : allocBlocks fs inum (i :: rest) = (false, fs) := by
          simp only [allocBlocks]
          rw [if_pos halloc, if_pos hnb]
        rw [hstep]
        refine ⟨fun p j _ => rfl, fun p _ => rfl, rfl, rfl, fun x h => h,
          rfl, rfl, rfl, rfl, rfl, ?_, fun j _ => rfl, ?_, ?_, rfl⟩
        · intro _
          show fs.super.free_blocks - fs.super.free_blocks = (countNew fs fs inum : Int)
          rw [countNew_self]
          simp
        · intro h
          exact absurd h (by simp)
        · intro _ j h1 h2
          exact absurd h1 h2
      · obtain ⟨bn, hbn, hds, hlt, _⟩ := get_free_block_ne_neg fs hnb
        have hstep : allocBlocks fs inum (i :: rest) =
            allocBlocks (allocStep fs inum i) inum rest := by
          simp only [allocBlocks]
          rw [if_pos halloc, if_neg hnb]
        have hFi : ((allocStep fs inum i).inodes inum).blocks i = (bn : Int) := by
          rw [allocStep_blocks_self, hbn]
        have hFine : ((allocStep fs inum i).inodes inum).blocks i ≠ -1 := by
          rw [hFi]; omega
        obtain ⟨m1, m2, m3, m4, m5, m6, m7, m8, m9, m10, m11, m12, m13, m14, m15⟩ :=
          ih (allocStep fs inum i)
        rw [hstep]
        have hri : ((allocBlocks (allocStep fs inum i) inum rest).2.inodes inum).blocks i =
            (bn : Int) := by
          rw [m1 inum i hFine, hFi]
        refine ⟨?_, ?_, ?_, ?_, ?_, ?_, ?_, ?_, ?_, ?_, ?_, ?_, ?_, ?_, ?_⟩
        · intro p j hj
          by_cases hp : p = inum
          · subst hp
            have hji : j ≠ i := fun h => hj (by rw [h]; exact halloc)
            rw [m1 p j (by rw [allocStep_blocks_other fs p i j hji]; exact hj),
              allocStep_blocks_other fs p i j hji]
          · rw [m2 p hp, allocStep_inodes_other fs inum i p hp]
        · intro p hp
          rw [m2 p hp, allocStep_inodes_other fs inum i p hp]
        · rw [m3, allocStep_name]
        · rw [m4, allocStep_size]
        · intro x hx
          exact m5 x (allocStep_bitmap_ne fs inum i x hx)
        · rw [m6, allocStep_super]
        · rw [m7, allocStep_super]
        · rw [m8, allocStep_super]
        · rw [m9, allocStep_super]
        · rw [m10, allocStep_super]
        · intro hl
          have hi : i < NUM_PTRS := hl i (List.mem_cons_self i rest)
          have hcount : countNew fs (allocBlocks (allocStep fs inum i) inum rest).2 inum =
              countNew (allocStep fs inum i)
                (allocBlocks (allocStep fs inum i) inum rest).2 inum + 1 := by
            rw [countNew, countNew]
            apply filter_length_succ_of_mem (List.mem_range.mpr hi) (List.nodup_range NUM_PTRS)
            · rw [halloc, hri]
              simp
            · rw [hFi]
              simp
            · intro j _ hji
              rw [allocStep_blocks_other fs inum i j hji]
          have hfree : (allocBlocks (allocStep fs inum i) inum rest).2.super.free_blocks =
              fs.super.free_blocks - 1 -
                (countNew (allocStep fs inum i)
                  (allocBlocks (allocStep fs inum i) inum rest).2 inum : Int) := by
            have := m11 (fun x hx => hl x (List.mem_cons_of_mem i hx))
            rw [allocStep_super] at this
            dsimp only at this
            omega
          rw [hcount, hfree]
          push_cast
          ring
        · intro j hj
          have hji : j ≠ i := fun h => hj (by rw [h]; exact List.mem_cons_self i rest)
          rw [m12 j (fun h => hj (List.mem_cons_of_mem i h)),
            allocStep_blocks_other fs inum i j hji]
        · intro hsucc j hj
          rcases List.mem_cons.mp hj with heq | hmem
          · rw [heq, hri]; omega
          · exact m13 hsucc j hmem
        · intro htb j hj1 hj2
          by_cases hji : j = i
          · rw [hji, hri]
            have hmark : (allocStep fs inum i).bitmap bn = 1 :=
              allocStep_bitmap_mark fs inum i bn hbn hlt htb
            have := m5 bn (by rw [hmark]; exact Nat.one_ne_zero)
            simpa using this
          · have hFj : ((allocStep fs inum i).inodes inum).blocks j = -1 := by
              rw [allocStep_blocks_other fs inum i j hji]; exact hj1
            exact m14 (by rw [allocStep_super]; exact htb) j hFj hj2
        · rw [m15, allocStep_disk]
    · have hstep : allocBlocks fs inum (i :: rest) = allocBlocks fs inum rest := by
        simp only [allocBlocks]
        rw [if_neg halloc]
      obtain ⟨m1, m2, m3, m4, m5, m6, m7, m8, m9, m10, m11, m12, m13, m14, m15⟩ := ih fs
      rw [hstep]
      refine ⟨m1, m2, m3, m4, m5, m6, m7, m8, m9, m10,
        fun hl => m11 (fun x hx => hl x (List.mem_cons_of_mem i hx)), ?_, ?_, m14, m15⟩
      · intro j hj
        exact m12 j (fun h => hj (List.mem_cons_of_mem i h))
      · intro hsucc j hj
        rcases List.mem_cons.mp hj with heq | hmem
        · rw [heq]
          rw [m1 inum i halloc]
          exact halloc
        · exact m13 hsucc j hmem

/-! ## The write path -/

theorem writeDataBlocks_inodes (inum : Nat) (data : List Nat) :
    ∀ (l : List Nat) (fs : FileSystem) (dl : Nat),
      (writeDataBlocks fs inum data dl l).inodes = fs.inodes := by
  intro l
  induction l with
  | nil => intro fs dl; rfl
  | cons i rest ih =>
    intro fs dl
    rw [writeDataBlocks]
    split
    · exact ih fs dl
    · exact ih _ _

theorem writeDataBlocks_super (inum : Nat) (data : List Nat) :
    ∀ (l : List Nat) (fs : FileSystem) (dl : Nat),
      (writeDataBlocks fs inum data dl l).super = fs.super := by
  intro l
  induction l with
  | nil => intro fs dl; rfl
  | cons i rest ih =>
    intro fs dl
    rw [writeDataBlocks]
    split
    · exact ih fs dl
    · exact ih _ _

theorem writeDataBlocks_bitmap (inum : Nat) (data : List Nat) :
    ∀ (l : List Nat) (fs : FileSystem) (dl : Nat),
      (writeDataBlocks fs inum data dl l).bitmap = fs.bitmap := by
  intro l
  induction l with
  | nil => intro fs dl; rfl
  | cons i rest ih =>
    intro fs dl
    rw [writeDataBlocks]
    split
    · exact ih fs dl
    · exact ih _ _

/-- `blocks_needed = ceil(data_len / BLOCK_SIZE)` is at most 10 when the
`TooLarge` check passed. -/
theorem blocks_needed_le {len : Nat} (h : len ≤ MAX_FILE_SIZE) :
    (len + BLOCK_SIZE - 1) / BLOCK_SIZE ≤ NUM_PTRS := by
  have h40960 : len ≤ 40960 := h
  show (len + 4096 - 1) / 4096 ≤ 10
  omega

/-- Shape of `fs_write_file` when the lookup succeeds, the size check
passes, and the allocation loop fails: the result is `-1` together with the
partially allocated state, with no rollback. -/
theorem fs_write_file_fail_eq (fs : FileSystem) (name : String) (data : List Nat) (k : Nat)
    (hfind : fs_find_inode fs name = (k : Int)) (hlen : data.length ≤ MAX_FILE_SIZE)
    (hfail :
      (allocBlocks fs k (List.range ((data.length + BLOCK_SIZE - 1) / BLOCK_SIZE))).1 = false) :
    fs_write_file fs name data =
      (-1, (allocBlocks fs k (List.range ((data.length + BLOCK_SIZE - 1) / BLOCK_SIZE))).2) := by
  have hA : allocBlocks fs k (List.range ((data.length + BLOCK_SIZE - 1) / BLOCK_SIZE)) =
      (false,
        (allocBlocks fs k (List.range ((data.length + BLOCK_SIZE - 1) / BLOCK_SIZE))).2) := by
    rw [← hfail]
  simp only [fs_write_file]
  rw [hfind, if_neg (by omega : ¬(k : Int) = -1), if_neg (Nat.not_lt.mpr hlen),
    Int.toNat_natCast, hA]

/-- Shape of `fs_write_file` when the lookup succeeds, the size check
passes, and the allocation loop succeeds: return 0, write the data blocks,
then store `size = strlen(data)` in the inode. -/
theorem fs_write_file_succ_eq (fs : FileSystem) (name : String) (data : List Nat) (k : Nat)
    (hfind : fs_find_inode fs name = (k : Int)) (hlen : data.length ≤ MAX_FILE_SIZE)
    (hsucc :
      (allocBlocks fs k (List.range ((data.length + BLOCK_SIZE - 1) / BLOCK_SIZE))).1 = true) :
    fs_write_file fs name data =
      (0,
        { writeDataBlocks
            (allocBlocks fs k (List.range ((data.length + BLOCK_SIZE - 1) / BLOCK_SIZE))).2
            k data data.length
            (List.range ((data.length + BLOCK_SIZE - 1) / BLOCK_SIZE)) with
          inodes := Function.update
            (writeDataBlocks
              (allocBlocks fs k (List.range ((data.length + BLOCK_SIZE - 1) / BLOCK_SIZE))).2
              k data data.length
              (List.range ((data.length + BLOCK_SIZE - 1) / BLOCK_SIZE))).inodes k
            { (writeDataBlocks
                (allocBlocks fs k (List.range ((data.length + BLOCK_SIZE - 1) / BLOCK_SIZE))).2
                k data data.length
                (List.range ((data.length + BLOCK_SIZE - 1) / BLOCK_SIZE))).inodes k with
              size := data.length } }) := by
  have hA : allocBlocks fs k (List.range ((data.length + BLOCK_SIZE - 1) / BLOCK_SIZE)) =
      (true,
        (allocBlocks fs k (List.range ((data.length + BLOCK_SIZE - 1) / BLOCK_SIZE))).2) := by
    rw [← hsucc]
  simp only [fs_write_file]
  rw [hfind, if_neg (by omega : ¬(k : Int) = -1), if_neg (Nat.not_lt.mpr hlen),
    Int.toNat_natCast, hA]

/-- `fs_write_file` with a name that is not in the table: `NotFound`. -/
theorem fs_write_file_notfound_eq (fs : FileSystem) (name : String) (data : List Nat)
    (hfind : fs_find_inode fs name = -1) : fs_write_file fs name data = (-1, fs) := by
  simp only [fs_write_file]
  rw [hfind, if_pos rfl]

/-- `fs_write_file` with more than `MAX_FILE_SIZE` bytes: `TooLarge`,
nothing is modified. -/
theorem fs_write_file_toolarge_eq (fs : FileSystem) (name : String) (data : List Nat) (k : Nat)
    (hfind : fs_find_inode fs name = (k : Int)) (hbig : MAX_FILE_SIZE < data.length) :
    fs_write_file fs name data = (-1, fs) := by
  simp only [fs_write_file]
  rw [hfind, if_neg (by omega : ¬(k : Int) = -1), if_pos hbig]

theorem countNew_eq_of_blocks (fs fs2 fs3 : FileSystem) (inum : Nat)
    (h : (fs2.inodes inum).blocks = (fs3.inodes inum).blocks) :
    countNew fs fs2 inum = countNew fs fs3 inum := by
  rw [countNew, countNew, h]

/-- C3 (amended: the claim holds for a file whose `blocks[]` entries are all
the sentinel before the call — e.g. a freshly created file.  Without that
restriction the claim is false: rewriting an existing two-block file with
one byte leaves the old second block attached, see
`claim_C3_counterexample`): a successful `write` of `data` to such a file
leaves exactly `ceil(len/block_size)` leading non-sentinel `blocks[]`
entries and every higher ordinal still at the sentinel `-1`. -/
theorem claim_C3_write_block_count (fs : FileSystem) (name : String) (data : List Nat) (k : Nat)
    (hfind : fs_find_inode fs name = (k : Int))
    (hfresh : ∀ j, (fs.inodes k).blocks j = -1)
    (hsucc : (fs_write_file fs name data).1 = 0) :
    (∀ j, j < (data.length + BLOCK_SIZE - 1) / BLOCK_SIZE →
      ((fs_write_file fs name data).2.inodes k).blocks j ≠ -1) ∧
    (∀ j, (data.length + BLOCK_SIZE - 1) / BLOCK_SIZE ≤ j → j < NUM_PTRS →
      ((fs_write_file fs name data).2.inodes k).blocks j = -1) := by
  by_cases hlen : data.length ≤ MAX_FILE_SIZE
  · by_cases hA :
      (allocBlocks fs k (List.range ((data.length + BLOCK_SIZE - 1) / BLOCK_SIZE))).1 = true
    · have hEq := fs_write_file_succ_eq fs name data k hfind hlen hA
      obtain ⟨m1, m2, m3, m4, m5, m6, m7, m8, m9, m10, m11, m12, m13, m14, m15⟩ :=
        allocBlocks_facts k (List.range ((data.length + BLOCK_SIZE - 1) / BLOCK_SIZE)) fs
      constructor
      · intro j hj
        rw [hEq]
        dsimp only
        rw [Function.update_same]
        dsimp only
        rw [writeDataBlocks_inodes]
        exact m13 hA j (List.mem_range.mpr hj)
      · intro j hj1 hj2
        rw [hEq]
        dsimp only
        rw [Function.update_same]
        dsimp only
        rw [writeDataBlocks_inodes]
        rw [m12 j (fun h => absurd (List.mem_range.mp h) (Nat.not_lt.mpr hj1))]
        exact hfresh j
    · have hf :
          (allocBlocks fs k (List.range ((data.length + BLOCK_SIZE - 1) / BLOCK_SIZE))).1 =
            false := by
        simpa using hA
      rw [fs_write_file_fail_eq fs name data k hfind hlen hf] at hsucc
      exact absurd hsucc (by norm_num)
  · rw [fs_write_file_toolarge_eq fs name data k hfind (by omega)] at hsucc
    exact absurd hsucc (by norm_num)

/-- C4: a `write` that passes the lookup and size checks but returns `-1`
(the `NoFreeBlock` path) keeps every previously attached block, keeps every
block it did allocate during the call attached to the inode with its bitmap
entry marked used, and leaves `free_blocks` decremented by exactly the
number of blocks allocated during the call: no rollback happens. -/
theorem claim_C4_no_rollback (fs : FileSystem) (name : String) (data : List Nat) (k : Nat)
    (htb : fs.super.total_blocks = TOTAL_BLOCKS)
    (hfind : fs_find_inode fs name = (k : Int))
    (hlen : data.length ≤ MAX_FILE_SIZE)
    (hfail : (fs_write_file fs name data).1 = -1) :
    (∀ j, (fs.inodes k).blocks j ≠ -1 →
      ((fs_write_file fs name data).2.inodes k).blocks j = (fs.inodes k).blocks j) ∧
    (∀ j, (fs.inodes k).blocks j = -1 →
      ((fs_write_file fs name data).2.inodes k).blocks j ≠ -1 →
      (fs_write_file fs name data).2.bitmap
        (((fs_write_file fs name data).2.inodes k).blocks j).toNat ≠ 0) ∧
    (fs.super.free_blocks - (fs_write_file fs name data).2.super.free_blocks =
      (countNew fs (fs_write_file fs name data).2 k : Int)) := by
  by_cases hA :
    (allocBlocks fs k (List.range ((data.length + BLOCK_SIZE - 1) / BLOCK_SIZE))).1 = true
  · rw [fs_write_file_succ_eq fs name data k hfind hlen hA] at hfail
    exact absurd hfail (by norm_num)
  · have hf :
        (allocBlocks fs k (List.range ((data.length + BLOCK_SIZE - 1) / BLOCK_SIZE))).1 =
          false := by
      simpa using hA
    have hEq := fs_write_file_fail_eq fs name data k hfind hlen hf
    obtain ⟨m1, m2, m3, m4, m5, m6, m7, m8, m9, m10, m11, m12, m13, m14, m15⟩ :=
      allocBlocks_facts k (List.range ((data.length + BLOCK_SIZE - 1) / BLOCK_SIZE)) fs
    rw [hEq]
    dsimp only
    refine ⟨fun j hj => m1 k j hj, m14 (le_of_eq htb), ?_⟩
    exact m11 (fun x hx =>
      Nat.lt_of_lt_of_le (List.mem_range.mp hx) (blocks_needed_le hlen))

/-! ## Concrete states for the C3 counterexample and the C3/C4 witnesses -/

theorem fs_find_inode_congr (fs fs2 : FileSystem) (name : String)
    (h : ∀ i, i < MAX_INODES → (fs2.inodes i).name = (fs.inodes i).name) :
    fs_find_inode fs2 name = fs_find_inode fs name := by
  rw [fs_find_inode, fs_find_inode]
  apply scanFirst_congr
  intro j _ hj
  rw [h j hj]

/-- A 4097-byte content (just over one block), forcing a two-block file. -/
def bigData : List Nat := List.replicate 4097 65

theorem bigData_length : bigData.length = 4097 := by
  rw [bigData]
  exact List.length_replicate 4097 65

theorem bigData_le : bigData.length ≤ MAX_FILE_SIZE := by
  rw [bigData_length]; decide

theorem bigData_blocks_needed : (bigData.length + BLOCK_SIZE - 1) / BLOCK_SIZE = 2 := by
  rw [bigData_length]; decide

theorem bigData_range :
    List.range ((bigData.length + BLOCK_SIZE - 1) / BLOCK_SIZE) = List.range 2 := by
  rw [bigData_blocks_needed]

/-- The session state after `create("a")` and a 4097-byte `write("a", ...)`
on the formatted image: file `"a"` owns blocks 5 and 6. -/
def cexBase : FileSystem := run fs_init [Op.create "a", Op.write "a" bigData]

theorem cexBase_def : cexBase = (fs_write_file stateA "a" bigData).2 := rfl

theorem stateA_find : fs_find_inode stateA "a" = ((0 : Nat) : Int) := by decide

theorem stateA_alloc2 : (allocBlocks stateA 0 (List.range 2)).1 = true := by decide

theorem cexBase_structure :
    cexBase =
      (0,
        { writeDataBlocks (allocBlocks stateA 0 (List.range 2)).2 0 bigData bigData.length
            (List.range 2) with
          inodes := Function.update
            (writeDataBlocks (allocBlocks stateA 0 (List.range 2)).2 0 bigData bigData.length
              (List.range 2)).inodes 0
            { (writeDataBlocks (allocBlocks stateA 0 (List.range 2)).2 0 bigData
                bigData.length (List.range 2)).inodes 0 with
              size := bigData.length } }).2 := by
  rw [cexBase_def,
    fs_write_file_succ_eq stateA "a" bigData 0 stateA_find bigData_le
      (by rw [bigData_range]; exact stateA_alloc2),
    bigData_range]

theorem cexBase_names (i : Nat) (hi : i < MAX_INODES) :
    (cexBase.inodes i).name = (stateA.inodes i).name := by
  obtain ⟨m1, m2, m3, _⟩ := allocBlocks_facts 0 (List.range 2) stateA
  rw [cexBase_structure]
  dsimp only
  by_cases h0 : i = 0
  · subst h0
    rw [Function.update_same]
    dsimp only
    rw [writeDataBlocks_inodes]
    exact m3
  · rw [Function.update_noteq h0]
    rw [writeDataBlocks_inodes]
    rw [m2 i h0]

theorem cexBase_find : fs_find_inode cexBase "a" = ((0 : Nat) : Int) :=
  (fs_find_inode_congr stateA cexBase "a" cexBase_names).trans stateA_find

theorem cexBase_blocks (j : Nat) :
    (cexBase.inodes 0).blocks j = ((allocBlocks stateA 0 (List.range 2)).2.inodes 0).blocks j := by
  rw [cexBase_structure]
  dsimp only
  rw [Function.update_same]
  dsimp only
  rw [writeDataBlocks_inodes]

theorem cexBase_b0 : (cexBase.inodes 0).blocks 0 = 5 := by
  rw [cexBase_blocks]; decide

theorem cexBase_b1 : (cexBase.inodes 0).blocks 1 = 6 := by
  rw [cexBase_blocks]; decide

theorem cexBase_alloc1 : allocBlocks cexBase 0 (List.range 1) = (true, cexBase) := by
  show allocBlocks cexBase 0 [0] = (true, cexBase)
  simp only [allocBlocks]
  rw [if_neg (by rw [cexBase_b0]; norm_num)]

/-- Counterexample to C3 as stated: `cexBase` is reachable from the
formatted image (so it is a mounted state), the one-byte write to `"a"`
succeeds and needs `ceil(1/4096) = 1` block, yet ordinal position 1 of the
inode still holds a block (the old second block): the inode does not have
exactly one non-sentinel entry and the higher-ordinal slots are not all the
sentinel. -/
theorem claim_C3_counterexample :
    fs_find_inode cexBase "a" = ((0 : Nat) : Int) ∧
    (fs_write_file cexBase "a" [66]).1 = 0 ∧
    (([66] : List Nat).length + BLOCK_SIZE - 1) / BLOCK_SIZE = 1 ∧
    ((fs_write_file cexBase "a" [66]).2.inodes 0).blocks 1 ≠ -1 := by
  have hlen2 : ([66] : List Nat).length ≤ MAX_FILE_SIZE := by decide
  have hrange2 : List.range ((([66] : List Nat).length + BLOCK_SIZE - 1) / BLOCK_SIZE) =
      List.range 1 := by decide
  have halloc2 :
      (allocBlocks cexBase 0
        (List.range ((([66] : List Nat).length + BLOCK_SIZE - 1) / BLOCK_SIZE))).1 = true := by
    rw [hrange2, cexBase_alloc1]
  have hEq2 := fs_write_file_succ_eq cexBase "a" [66] 0 cexBase_find hlen2 halloc2
  refine ⟨cexBase_find, by rw [hEq2], by decide, ?_⟩
  rw [hEq2]
  dsimp only
  rw [Function.update_same]
  dsimp only
  rw [writeDataBlocks_inodes, hrange2, cexBase_alloc1]
  dsimp only
  rw [cexBase_b1]
  norm_num

/-- Witness for the amended C3 at small concrete inputs: writing two bytes
to the freshly created `"a"` fills exactly ordinal 0 and leaves ordinal 3
at the sentinel. -/
theorem claim_C3_witness :
    (∀ j, (stateA.inodes 0).blocks j = -1) ∧
    (fs_write_file stateA "a" [104, 105]).1 = 0 ∧
    ((fs_write_file stateA "a" [104, 105]).2.inodes 0).blocks 0 ≠ -1 ∧
    ((fs_write_file stateA "a" [104, 105]).2.inodes 0).blocks 3 = -1 :=
  have h := claim_C3_write_block_count stateA "a" [104, 105] 0 (by decide) (fun _ => rfl)
    (by decide)
  ⟨fun _ => rfl, by decide, h.1 0 (by decide), h.2 3 (by decide) (by decide)⟩

/-- A mounted-shape state in which only data block 5 is free: slot 0 holds
the empty file `"a"`, every other data block is used. -/
def c4State : FileSystem :=
  { super :=
      { total_blocks := 1024, free_blocks := 1, block_size := 4096,
        inode_table_start := 1, bitmap_start := 4, data_start := 5 }
    inodes := Function.update (fun _ => zeroInode) 0
      { name := "a", size := 0, blocks := fun _ => -1 }
    bitmap := fun i => if i = 5 then 0 else 1
    disk := fun _ _ => 0 }

/-- Witness for C4: on `c4State`, a 4097-byte write allocates block 5 at
ordinal 0 and then fails with `NoFreeBlock` at ordinal 1; the returned
state keeps block 5 attached and marked used, and `free_blocks` is down by
exactly one. -/
theorem claim_C4_witness :
    c4State.super.total_blocks = TOTAL_BLOCKS ∧
    fs_find_inode c4State "a" = ((0 : Nat) : Int) ∧
    bigData.length ≤ MAX_FILE_SIZE ∧
    (fs_write_file c4State "a" bigData).1 = -1 ∧
    ((fs_write_file c4State "a" bigData).2.inodes 0).blocks 0 ≠ -1 ∧
    (fs_write_file c4State "a" bigData).2.bitmap
      (((fs_write_file c4State "a" bigData).2.inodes 0).blocks 0).toNat ≠ 0 ∧
    c4State.super.free_blocks - (fs_write_file c4State "a" bigData).2.super.free_blocks =
      (countNew c4State (fs_write_file c4State "a" bigData).2 0 : Int) := by
  have htb : c4State.super.total_blocks = TOTAL_BLOCKS := by decide
  have hfind : fs_find_inode c4State "a" = ((0 : Nat) : Int) := by decide
  have hallocfail :
      (allocBlocks c4State 0
        (List.range ((bigData.length + BLOCK_SIZE - 1) / BLOCK_SIZE))).1 = false := by
    rw [bigData_range]; decide
  have hEq := fs_write_file_fail_eq c4State "a" bigData 0 hfind bigData_le hallocfail
  have hfail : (fs_write_file c4State "a" bigData).1 = -1 := by rw [hEq]
  have h := claim_C4_no_rollback c4State "a" bigData 0 htb hfind bigData_le hfail
  have hb0before : (c4State.inodes 0).blocks 0 = -1 := rfl
  have hb0after : ((fs_write_file c4State "a" bigData).2.inodes 0).blocks 0 ≠ -1 := by
    rw [hEq]
    dsimp only
    rw [bigData_range]
    decide
  exact ⟨htb, hfind, bigData_le, hfail, hb0after, h.2.1 0 hb0before hb0after, h.2.2⟩

/-! ## The free-block counter (C9) -/

theorem fs_create_file_super (fs : FileSystem) (name : String) :
    (fs_create_file fs name).2.super = fs.super := by
  simp only [fs_create_file]
  split
  · rfl
  · split
    · rfl
    · rfl

/-- The exact budget law of one `write`: `free_blocks` drops by the number
of newly attached blocks (each allocation decrements it once, and nothing
else in the call touches it). -/
theorem fs_write_file_free_eq (fs : FileSystem) (name : String) (data : List Nat) :
    fs.super.free_blocks - (fs_write_file fs name data).2.super.free_blocks =
      (countNew fs (fs_write_file fs name data).2 (fs_find_inode fs name).toNat : Int) := by
  rcases fs_find_inode_cases fs name with hf | ⟨k, hk, _, _, _⟩
  · rw [fs_write_file_notfound_eq fs name data hf, hf]
    dsimp only
    rw [countNew_self]
    simp
  · rw [hk, Int.toNat_natCast]
    by_cases hlen : data.length ≤ MAX_FILE_SIZE
    · obtain ⟨m1, m2, m3, m4, m5, m6, m7, m8, m9, m10, m11, m12, m13, m14, m15⟩ :=
        allocBlocks_facts k (List.range ((data.length + BLOCK_SIZE - 1) / BLOCK_SIZE)) fs
      have hbound : ∀ x ∈ List.range ((data.length + BLOCK_SIZE - 1) / BLOCK_SIZE),
          x < NUM_PTRS := fun x hx =>
        Nat.lt_of_lt_of_le (List.mem_range.mp hx) (blocks_needed_le hlen)
      by_cases hA :
        (allocBlocks fs k (List.range ((data.length + BLOCK_SIZE - 1) / BLOCK_SIZE))).1 = true
      · rw [fs_write_file_succ_eq fs name data k hk hlen hA]
        dsimp only
        have hblocks :
            ((Function.update
              (writeDataBlocks
                (allocBlocks fs k
                  (List.range ((data.length + BLOCK_SIZE - 1) / BLOCK_SIZE))).2
                k data data.length
                (List.range ((data.length + BLOCK_SIZE - 1) / BLOCK_SIZE))).inodes k
              { name := ((writeDataBlocks
                  (allocBlocks fs k
                    (List.range ((data.length + BLOCK_SIZE - 1) / BLOCK_SIZE))).2
                  k data data.length
                  (List.range ((data.length + BLOCK_SIZE - 1) / BLOCK_SIZE))).inodes k).name
                size := data.length
                blocks := ((writeDataBlocks
                  (allocBlocks fs k
                    (List.range ((data.length + BLOCK_SIZE - 1) / BLOCK_SIZE))).2
                  k data data.length
                  (List.range ((data.length + BLOCK_SIZE - 1) / BLOCK_SIZE))).inodes k).blocks })
              k).blocks =
            (((allocBlocks fs k
              (List.range ((data.length + BLOCK_SIZE - 1) / BLOCK_SIZE))).2.inodes k).blocks) := by
          rw [Function.update_same]
          dsimp only
          rw [writeDataBlocks_inodes]
        rw [countNew_eq_of_blocks fs _ _ k hblocks, writeDataBlocks_super]
        exact m11 hbound
      · have hf2 :
            (allocBlocks fs k (List.range ((data.length + BLOCK_SIZE - 1) / BLOCK_SIZE))).1 =
              false := by
          simpa using hA
        rw [fs_write_file_fail_eq fs name data k hk hlen hf2]
        dsimp only
        exact m11 hbound
    · rw [fs_write_file_toolarge_eq fs name data k hk (by omega)]
      dsimp only
      rw [countNew_self]
      simp

theorem step_free_blocks_le (fs : FileSystem) (op : Op) :
    (step fs op).super.free_blocks ≤ fs.super.free_blocks := by
  cases op with
  | create n =>
    simp only [step]
    rw [fs_create_file_super]
  | write n d =>
    have h := fs_write_file_free_eq fs n d
    simp only [step]
    have hnn : (0 : Int) ≤ (countNew fs (fs_write_file fs n d).2 (fs_find_inode fs n).toNat : Int) :=
      Int.natCast_nonneg _
    omega
  | read n => exact le_refl _
  | list => exact le_refl _

theorem run_free_blocks_le (ops : List Op) :
    ∀ fs : FileSystem, (run fs ops).super.free_blocks ≤ fs.super.free_blocks := by
  induction ops with
  | nil => intro fs; exact le_refl _
  | cons op rest ih =>
    intro fs
    exact le_trans (ih (step fs op)) (step_free_blocks_le fs op)

/-! ## The data-model invariant of session states

`Inv` is the shallow rendering of the spec's data-model relationships for a
mounted session state: the superblock's `total_blocks` is the compiled-in
constant, every block attached to an occupied slot (non-empty name) lies in
the data region and is marked used in the bitmap, no block is attached at
two different (slot, ordinal) positions of occupied slots, and each slot's
non-sentinel `blocks[]` entries form a contiguous prefix.  `Inv_run` shows
that every state a session reaches from the freshly formatted image
satisfies it. -/

structure Inv (fs : FileSystem) : Prop where
  tb : fs.super.total_blocks = TOTAL_BLOCKS
  range_used : ∀ p, p < MAX_INODES → (fs.inodes p).name ≠ "" →
    ∀ q, q < NUM_PTRS → (fs.inodes p).blocks q ≠ -1 →
      (fs.super.data_start : Int) ≤ (fs.inodes p).blocks q ∧
      (fs.inodes p).blocks q < (fs.super.total_blocks : Int) ∧
      fs.bitmap ((fs.inodes p).blocks q).toNat ≠ 0
  inj : ∀ p1 q1 p2 q2, p1 < MAX_INODES → p2 < MAX_INODES → q1 < NUM_PTRS → q2 < NUM_PTRS →
    (fs.inodes p1).name ≠ "" → (fs.inodes p2).name ≠ "" →
    (fs.inodes p1).blocks q1 ≠ -1 → (fs.inodes p2).blocks q2 ≠ -1 →
    ¬(p1 = p2 ∧ q1 = q2) →
    (fs.inodes p1).blocks q1 ≠ (fs.inodes p2).blocks q2
  prefixP : ∀ p, p < MAX_INODES → ∀ q1 q2, q1 < q2 → q2 < NUM_PTRS →
    (fs.inodes p).blocks q1 = -1 → (fs.inodes p).blocks q2 = -1

theorem Inv_fs_init : Inv fs_init := by
  have hname : ∀ p, (fs_init.inodes p).name = "" := fun p => rfl
  have hblocks : ∀ p q, (fs_init.inodes p).blocks q = 0 := fun p q => rfl
  constructor
  · rfl
  · intro p _ hpname
    exact absurd (hname p) hpname
  · intro p1 q1 p2 q2 _ _ _ _ hn1 _ _ _ _
    exact absurd (hname p1) hn1
  · intro p _ q1 q2 _ _ hsent
    rw [hblocks p q1] at hsent
    exact absurd hsent (by norm_num)

theorem Inv_create (fs : FileSystem) (name : String) (h : Inv fs) :
    Inv (fs_create_file fs name).2 := by
  by_cases hf : fs_find_inode fs name ≠ -1
  · rw [fs_create_file, if_pos hf]
    exact h
  · rcases scanFirst_cases (fun i => (fs.inodes i).name == "") MAX_INODES 0 with
      hs | ⟨k, hk, _, hklt, hkp, _⟩
    · rw [fs_create_file, if_neg hf]
      dsimp only
      rw [if_pos hs]
      exact h
    · rw [fs_create_file, if_neg hf]
      dsimp only
      rw [hk, if_neg (by omega), Int.toNat_natCast]
      dsimp only
      have hent : ∀ p q,
          ((Function.update fs.inodes k
            { name := name, size := 0, blocks := fun _ => (-1 : Int) } p).blocks q) =
            if p = k then -1 else (fs.inodes p).blocks q := by
        intro p q
        by_cases hp : p = k
        · subst hp; rw [Function.update_same, if_pos rfl]
        · rw [Function.update_noteq hp, if_neg hp]
      have hnm : ∀ p, p ≠ k →
          (Function.update fs.inodes k
            { name := name, size := 0, blocks := fun _ => (-1 : Int) } p).name =
            (fs.inodes p).name := by
        intro p hp
        rw [Function.update_noteq hp]
      constructor
      · exact h.tb
      · intro p hp hpname q hq hqne
        rw [hent p q] at hqne ⊢
        by_cases hpk : p = k
        · rw [if_pos hpk] at hqne
          exact absurd rfl hqne
        · rw [if_neg hpk] at hqne ⊢
          rw [hnm p hpk] at hpname
          exact h.range_used p hp hpname q hq hqne
      · intro p1 q1 p2 q2 hp1 hp2 hq1 hq2 hn1 hn2 hne1 hne2 hneq
        rw [hent p1 q1] at hne1 ⊢
        rw [hent p2 q2] at hne2 ⊢
        by_cases hpk1 : p1 = k
        · rw [if_pos hpk1] at hne1
          exact absurd rfl hne1
        · rw [if_neg hpk1] at hne1 ⊢
          by_cases hpk2 : p2 = k
          · rw [if_pos hpk2] at hne2
            exact absurd rfl hne2
          · rw [if_neg hpk2] at hne2 ⊢
            rw [hnm p1 hpk1] at hn1
            rw [hnm p2 hpk2] at hn2
            exact h.inj p1 q1 p2 q2 hp1 hp2 hq1 hq2 hn1 hn2 hne1 hne2 hneq
      · intro p hp q1 q2 h12 hq2 hsent
        rw [hent p q1] at hsent
        rw [hent p q2]
        by_cases hpk : p = k
        · rw [if_pos hpk]
        · rw [if_neg hpk] at hsent ⊢
          exact h.prefixP p hp q1 q2 h12 hq2 hsent

theorem Inv_allocStep (fs : FileSystem) (inum i : Nat) (h : Inv fs)
    (halloc : (fs.inodes inum).blocks i = -1)
    (bn : Nat) (hbn : get_free_block fs = (bn : Int))
    (hfill : ∀ j, j < i → (fs.inodes inum).blocks j ≠ -1) :
    Inv (allocStep fs inum i) := by
  obtain ⟨hds, hlt, hfree0, _⟩ := get_free_block_eq_some fs bn hbn
  have hsup := allocStep_super fs inum i
  have htb2 : (allocStep fs inum i).super.total_blocks = fs.super.total_blocks := by
    rw [hsup]
  have hds2 : (allocStep fs inum i).super.data_start = fs.super.data_start := by
    rw [hsup]
  have hbm_mark : (allocStep fs inum i).bitmap bn = 1 :=
    allocStep_bitmap_mark fs inum i bn hbn hlt (le_of_eq h.tb)
  have hbm_mono : ∀ x, fs.bitmap x ≠ 0 → (allocStep fs inum i).bitmap x ≠ 0 :=
    allocStep_bitmap_ne fs inum i
  have hent : ∀ p q, ((allocStep fs inum i).inodes p).blocks q =
      if p = inum ∧ q = i then (bn : Int) else (fs.inodes p).blocks q := by
    intro p q
    by_cases hp : p = inum
    · subst hp
      by_cases hq : q = i
      · subst hq
        rw [allocStep_blocks_self, hbn, if_pos ⟨rfl, rfl⟩]
      · rw [allocStep_blocks_other fs _ i q hq, if_neg (fun hc => hq hc.2)]
    · rw [allocStep_inodes_other fs inum i p hp, if_neg (fun hc => hp hc.1)]
  have hname : ∀ p, ((allocStep fs inum i).inodes p).name = (fs.inodes p).name := by
    intro p
    by_cases hp : p = inum
    · subst hp
      exact allocStep_name fs _ i
    · rw [allocStep_inodes_other fs inum i p hp]
  constructor
  · rw [htb2, h.tb]
  · intro p hp hpname q hq hqne
    rw [hent p q] at hqne ⊢
    rw [hname p] at hpname
    rw [htb2, hds2]
    by_cases hpq : p = inum ∧ q = i
    · rw [if_pos hpq] at hqne ⊢
      refine ⟨by exact_mod_cast hds, by exact_mod_cast hlt, ?_⟩
      rw [Int.toNat_natCast, hbm_mark]
      exact Nat.one_ne_zero
    · rw [if_neg hpq] at hqne ⊢
      obtain ⟨r1, r2, r3⟩ := h.range_used p hp hpname q hq hqne
      exact ⟨r1, r2, hbm_mono _ r3⟩
  · intro p1 q1 p2 q2 hp1 hp2 hq1 hq2 hn1 hn2 hne1 hne2 hneq
    rw [hent p1 q1] at hne1 ⊢
    rw [hent p2 q2] at hne2 ⊢
    rw [hname p1] at hn1
    rw [hname p2] at hn2
    by_cases hA : p1 = inum ∧ q1 = i
    · rw [if_pos hA] at hne1 ⊢
      have hB : ¬(p2 = inum ∧ q2 = i) := by
        intro hB
        exact hneq ⟨hA.1.trans hB.1.symm, hA.2.trans hB.2.symm⟩
      rw [if_neg hB] at hne2 ⊢
      intro hcontra
      obtain ⟨_, _, hused⟩ := h.range_used p2 hp2 hn2 q2 hq2 hne2
      rw [← hcontra, Int.toNat_natCast] at hused
      exact hused hfree0
    · rw [if_neg hA] at hne1 ⊢
      by_cases hB : p2 = inum ∧ q2 = i
      · rw [if_pos hB] at hne2 ⊢
        intro hcontra
        obtain ⟨_, _, hused⟩ := h.range_used p1 hp1 hn1 q1 hq1 hne1
        rw [hcontra, Int.toNat_natCast] at hused
        exact hused hfree0
      · rw [if_neg hB] at hne2 ⊢
        exact h.inj p1 q1 p2 q2 hp1 hp2 hq1 hq2 hn1 hn2 hne1 hne2 hneq
  · intro p hp q1 q2 h12 hq2 hsent
    rw [hent p q1] at hsent
    rw [hent p q2]
    by_cases hA : p = inum ∧ q1 = i
    · rw [if_pos hA] at hsent
      exact absurd hsent (by omega)
    · rw [if_neg hA] at hsent
      by_cases hB : p = inum ∧ q2 = i
      · exfalso
        have hq1i : q1 < i := hB.2 ▸ h12
        have := hfill q1 hq1i
        rw [← hB.1] at this
        exact this hsent
      · rw [if_neg hB]
        exact h.prefixP p hp q1 q2 h12 hq2 hsent

theorem allocBlocks_inv (inum : Nat) :
    ∀ (k i : Nat) (fs : FileSystem), Inv fs →
      (∀ j, j < i → (fs.inodes inum).blocks j ≠ -1) →
      Inv (allocBlocks fs inum (List.range' i k)).2 := by
  intro k
  induction k with
  | zero =>
    intro i fs h _
    exact h
  | succ k ih =>
    intro i fs h hfill
    rw [List.range'_succ]
    by_cases halloc : (fs.inodes inum).blocks i = -1
    · by_cases hnb : get_free_block fs = -1
      · have hstep : allocBlocks fs inum (i :: List.range' (i + 1) k) = (false, fs) := by
          simp only [allocBlocks]
          rw [if_pos halloc, if_pos hnb]
        rw [hstep]
        exact h
      · obtain ⟨bn, hbn, _, _, _⟩ := get_free_block_ne_neg fs hnb
        have hstep : allocBlocks fs inum (i :: List.range' (i + 1) k) =
            allocBlocks (allocStep fs inum i) inum (List.range' (i + 1) k) := by
          simp only [allocBlocks]
          rw [if_pos halloc, if_neg hnb]
        rw [hstep]
        apply ih (i + 1) (allocStep fs inum i)
        · exact Inv_allocStep fs inum i h halloc bn hbn hfill
        · intro j hj
          by_cases hji : j = i
          · rw [hji, allocStep_blocks_self, hbn]
            omega
          · rw [allocStep_blocks_other fs inum i j hji]
            exact hfill j (by omega)
    · have hstep : allocBlocks fs inum (i :: List.range' (i + 1) k) =
          allocBlocks fs inum (List.range' (i + 1) k) := by
        simp only [allocBlocks]
        rw [if_neg halloc]
      rw [hstep]
      apply ih (i + 1) fs h
      intro j hj
      by_cases hji : j = i
      · rw [hji]
        exact halloc
      · exact hfill j (by omega)

theorem Inv_writeData (fsA : FileSystem) (inum : Nat) (data : List Nat) (l : List Nat)
    (dl : Nat) (h : Inv fsA) : Inv (writeDataBlocks fsA inum data dl l) := by
  have h1 := writeDataBlocks_inodes inum data l fsA dl
  have h2 := writeDataBlocks_super inum data l fsA dl
  have h3 := writeDataBlocks_bitmap inum data l fsA dl
  refine ⟨?_, ?_, ?_, ?_⟩
  · rw [h2]
    exact h.tb
  · intro p hp hname q hq hqne
    rw [h1] at hname hqne
    rw [h1, h2, h3]
    exact h.range_used p hp hname q hq hqne
  · intro p1 q1 p2 q2 hp1 hp2 hq1 hq2 hn1 hn2 hne1 hne2 hneq
    rw [h1] at hn1 hn2 hne1 hne2
    rw [h1]
    exact h.inj p1 q1 p2 q2 hp1 hp2 hq1 hq2 hn1 hn2 hne1 hne2 hneq
  · intro p hp q1 q2 h12 hq2 hsent
    rw [h1] at hsent
    rw [h1]
    exact h.prefixP p hp q1 q2 h12 hq2 hsent

theorem Inv_update_size (fs : FileSystem) (k len : Nat) (h : Inv fs) :
    Inv { fs with inodes := Function.update fs.inodes k { fs.inodes k with size := len } } := by
  have hname : ∀ p,
      (Function.update fs.inodes k { fs.inodes k with size := len } p).name =
        (fs.inodes p).name := by
    intro p
    by_cases hp : p = k
    · subst hp
      rw [Function.update_same]
    · rw [Function.update_noteq hp]
  have hblocks : ∀ p,
      (Function.update fs.inodes k { fs.inodes k with size := len } p).blocks =
        (fs.inodes p).blocks := by
    intro p
    by_cases hp : p = k
    · subst hp
      rw [Function.update_same]
    · rw [Function.update_noteq hp]
  refine ⟨h.tb, ?_, ?_, ?_⟩
  · intro p hp hpname q hq hqne
    dsimp only at hpname hqne ⊢
    rw [hname p] at hpname
    rw [hblocks p] at hqne ⊢
    exact h.range_used p hp hpname q hq hqne
  · intro p1 q1 p2 q2 hp1 hp2 hq1 hq2 hn1 hn2 hne1 hne2 hneq
    dsimp only at hn1 hn2 hne1 hne2 ⊢
    rw [hname p1] at hn1
    rw [hname p2] at hn2
    rw [hblocks p1] at hne1 ⊢
    rw [hblocks p2] at hne2 ⊢
    exact h.inj p1 q1 p2 q2 hp1 hp2 hq1 hq2 hn1 hn2 hne1 hne2 hneq
  · intro p hp q1 q2 h12 hq2 hsent
    dsimp only at hsent ⊢
    rw [hblocks p] at hsent ⊢
    exact h.prefixP p hp q1 q2 h12 hq2 hsent

theorem Inv_write (fs : FileSystem) (name : String) (data : List Nat) (h : Inv fs) :
    Inv (fs_write_file fs name data).2 := by
  rcases fs_find_inode_cases fs name with hf | ⟨k, hk, hklt, _, _⟩
  · rw [fs_write_file_notfound_eq fs name data hf]
    exact h
  · by_cases hlen : data.length ≤ MAX_FILE_SIZE
    · have hinv_alloc :
          Inv (allocBlocks fs k
            (List.range ((data.length + BLOCK_SIZE - 1) / BLOCK_SIZE))).2 := by
        rw [List.range_eq_range']
        exact allocBlocks_inv k _ 0 fs h (fun j hj => absurd hj (Nat.not_lt_zero j))
      by_cases hA :
        (allocBlocks fs k (List.range ((data.length + BLOCK_SIZE - 1) / BLOCK_SIZE))).1 = true
      · rw [fs_write_file_succ_eq fs name data k hk hlen hA]
        dsimp only
        exact Inv_update_size _ k data.length (Inv_writeData _ k data _ data.length hinv_alloc)
      · have hf2 :
            (allocBlocks fs k (List.range ((data.length + BLOCK_SIZE - 1) / BLOCK_SIZE))).1 =
              false := by
          simpa using hA
        rw [fs_write_file_fail_eq fs name data k hk hlen hf2]
        exact hinv_alloc
    · rw [fs_write_file_toolarge_eq fs name data k hk (by omega)]
      exact h

theorem Inv_step (fs : FileSystem) (op : Op) (h : Inv fs) : Inv (step fs op) := by
  cases op with
  | create n => exact Inv_create fs n h
  | write n d => exact Inv_write fs n d h
  | read n => exact h
  | list => exact h

theorem Inv_run_from (ops : List Op) :
    ∀ fs : FileSystem, Inv fs → Inv (run fs ops) := by
  induction ops with
  | nil => intro fs h; exact h
  | cons op rest ih =>
    intro fs h
    exact ih (step fs op) (Inv_step fs op h)

/-- Every state a session reaches from the freshly formatted image
satisfies the data-model invariant. -/
theorem Inv_run (ops : List Op) : Inv (run fs_init ops) :=
  Inv_run_from ops fs_init Inv_fs_init

/-- C8 (amended: restricted to occupied slots, i.e. slots with a non-empty
name.  As stated over every slot the claim is false at the formatted image
itself: `memset` leaves free slots' `blocks[]` holding 0, which is neither
the sentinel nor a data-region index — see `claim_C8_counterexample`): in
every state reachable from the formatted image, every non-sentinel entry of
an occupied slot's `blocks[]` lies in `[data_start, total_blocks)` and its
bitmap entry is marked used, and no block index appears at two distinct
(slot, ordinal) positions among occupied slots. -/
theorem claim_C8_block_ownership (ops : List Op) :
    (∀ p, p < MAX_INODES → ((run fs_init ops).inodes p).name ≠ "" →
      ∀ q, q < NUM_PTRS → ((run fs_init ops).inodes p).blocks q ≠ -1 →
        ((run fs_init ops).super.data_start : Int) ≤ ((run fs_init ops).inodes p).blocks q ∧
        ((run fs_init ops).inodes p).blocks q < ((run fs_init ops).super.total_blocks : Int) ∧
        (run fs_init ops).bitmap (((run fs_init ops).inodes p).blocks q).toNat ≠ 0) ∧
    (∀ p1 q1 p2 q2, p1 < MAX_INODES → p2 < MAX_INODES → q1 < NUM_PTRS → q2 < NUM_PTRS →
      ((run fs_init ops).inodes p1).name ≠ "" → ((run fs_init ops).inodes p2).name ≠ "" →
      ((run fs_init ops).inodes p1).blocks q1 ≠ -1 →
      ((run fs_init ops).inodes p2).blocks q2 ≠ -1 →
      ¬(p1 = p2 ∧ q1 = q2) →
      ((run fs_init ops).inodes p1).blocks q1 ≠ ((run fs_init ops).inodes p2).blocks q2) :=
  ⟨(Inv_run ops).range_used, (Inv_run ops).inj⟩

/-- Counterexample to C8 as stated (over every inode slot): at the freshly
formatted image — reachable by the empty operation sequence — the free slot
0 has `blocks[0] = 0`, which is not the sentinel `-1` yet lies below
`data_start`, so "every non-sentinel entry of every inode's blocks[] lies
in data_start..total_blocks-1" fails. -/
theorem claim_C8_counterexample :
    ((run fs_init []).inodes 0).blocks 0 ≠ -1 ∧
    ¬(((run fs_init []).super.data_start : Int) ≤ ((run fs_init []).inodes 0).blocks 0) := by
  refine ⟨by decide, by decide⟩

/-- Witness for C8 after a create and a one-byte write: slot 0 is occupied,
owns a block at ordinal 0, and that block is in the data region. -/
theorem claim_C8_witness :
    ((run fs_init [Op.create "a", Op.write "a" [65]]).inodes 0).name ≠ "" ∧
    ((run fs_init [Op.create "a", Op.write "a" [65]]).inodes 0).blocks 0 ≠ -1 ∧
    ((run fs_init [Op.create "a", Op.write "a" [65]]).super.data_start : Int) ≤
      ((run fs_init [Op.create "a", Op.write "a" [65]]).inodes 0).blocks 0 :=
  ⟨by decide, by decide,
    ((claim_C8_block_ownership [Op.create "a", Op.write "a" [65]]).1 0 (by decide) (by decide)
      0 (by decide) (by decide)).1⟩

/-- C10: in every state reachable from the formatted image, the
non-sentinel entries of each slot's `blocks[]` form a contiguous prefix:
a sentinel at ordinal `q1` forces a sentinel at every higher ordinal `q2`.
This is the invariant that lets `fs_read_file`'s stop-at-first-sentinel
loop cover every block holding content up to `size`. -/
theorem claim_C10_blocks_prefix (ops : List Op) (p q1 q2 : Nat)
    (hp : p < MAX_INODES) (h12 : q1 < q2) (hq2 : q2 < NUM_PTRS)
    (hsent : ((run fs_init ops).inodes p).blocks q1 = -1) :
    ((run fs_init ops).inodes p).blocks q2 = -1 :=
  (Inv_run ops).prefixP p hp q1 q2 h12 hq2 hsent

/-- Witness for C10 after creating `"a"` and writing one block: ordinal 2
holds the sentinel, so ordinal 7 does as well. -/
theorem claim_C10_witness :
    ((run fs_init [Op.create "a", Op.write "a" [65]]).inodes 0).blocks 2 = -1 ∧
    ((run fs_init [Op.create "a", Op.write "a" [65]]).inodes 0).blocks 7 = -1 :=
  ⟨by decide,
   claim_C10_blocks_prefix [Op.create "a", Op.write "a" [65]] 0 2 7 (by decide) (by decide)
     (by decide) (by decide)⟩

/-! ## Content of the data blocks (towards the round-trip C1)

`chunkAt data j` is the portion of `data` that the write loop stores into
the block at ordinal position `j`: `min(remaining, BLOCK_SIZE)` bytes
starting at offset `j * BLOCK_SIZE`. -/

def chunkAt (data : List Nat) (j : Nat) : List Nat :=
  (data.drop (j * BLOCK_SIZE)).take (min (data.length - j * BLOCK_SIZE) BLOCK_SIZE)

theorem writeChunk_self (disk : Nat → Nat → Nat) (b : Nat) (chunk : List Nat) (off : Nat) :
    writeChunk disk b chunk b off = chunk.getD off 0 := by
  rw [writeChunk]
  exact if_pos rfl

theorem writeChunk_other (disk : Nat → Nat → Nat) (b : Nat) (chunk : List Nat) (b2 : Nat)
    (h : b2 ≠ b) : writeChunk disk b chunk b2 = disk b2 := by
  funext off
  rw [writeChunk]
  exact if_neg h

theorem map_range_getD (l : List Nat) :
    (List.range l.length).map (fun off => l.getD off 0) = l := by
  induction l with
  | nil => rfl
  | cons a t ih =>
    rw [List.length_cons, List.range_succ_eq_map, List.map_cons, List.map_map]
    have hcomp : ((fun off => (a :: t).getD off 0) ∘ Nat.succ) = fun off => t.getD off 0 :=
      funext fun off => rfl
    rw [hcomp, ih]
    rfl

theorem chunkAt_length (data : List Nat) (j : Nat) :
    (chunkAt data j).length = min (data.length - j * BLOCK_SIZE) BLOCK_SIZE := by
  rw [chunkAt, List.length_take, List.length_drop]
  omega

theorem drop_chunk_split (data : List Nat) (j : Nat) :
    data.drop (j * BLOCK_SIZE) = chunkAt data j ++ data.drop ((j + 1) * BLOCK_SIZE) := by
  have hmul : (j + 1) * BLOCK_SIZE = j * BLOCK_SIZE + BLOCK_SIZE := by ring
  rw [chunkAt, hmul]
  generalize j * BLOCK_SIZE = t
  have hlen : (data.drop t).length = data.length - t := List.length_drop _ _
  by_cases hcase : data.length - t ≤ BLOCK_SIZE
  · rw [Nat.min_eq_left hcase, ← hlen, List.take_length,
      List.drop_eq_nil_of_le (show data.length ≤ t + BLOCK_SIZE by omega), List.append_nil]
  · rw [Nat.min_eq_right (by omega)]
    conv_lhs => rw [← List.take_append_drop BLOCK_SIZE (data.drop t)]
    congr 1
    rw [List.drop_drop]

/-- Basic facts about `n = ceil(len / BLOCK_SIZE)` for positive `len`:
`len` fits in `n` blocks and overflows `n - 1` blocks. -/
theorem ceil_blocks_facts (len : Nat) (hpos : 0 < len) :
    len ≤ ((len + BLOCK_SIZE - 1) / BLOCK_SIZE) * BLOCK_SIZE ∧
    (((len + BLOCK_SIZE - 1) / BLOCK_SIZE) - 1) * BLOCK_SIZE < len ∧
    1 ≤ (len + BLOCK_SIZE - 1) / BLOCK_SIZE := by
  have hB : (0 : Nat) < BLOCK_SIZE := by decide
  have h1n : 1 ≤ (len + BLOCK_SIZE - 1) / BLOCK_SIZE :=
    (Nat.le_div_iff_mul_le hB).mpr (by omega)
  have hq := Nat.div_add_mod (len + BLOCK_SIZE - 1) BLOCK_SIZE
  have hr := Nat.mod_lt (len + BLOCK_SIZE - 1) hB
  rw [Nat.mul_comm] at hq
  have hsub : (((len + BLOCK_SIZE - 1) / BLOCK_SIZE) - 1) * BLOCK_SIZE =
      ((len + BLOCK_SIZE - 1) / BLOCK_SIZE) * BLOCK_SIZE - BLOCK_SIZE := by
    rw [Nat.sub_mul, Nat.one_mul]
  have hge : BLOCK_SIZE ≤ ((len + BLOCK_SIZE - 1) / BLOCK_SIZE) * BLOCK_SIZE := by
    calc BLOCK_SIZE = 1 * BLOCK_SIZE := (Nat.one_mul _).symm
    _ ≤ ((len + BLOCK_SIZE - 1) / BLOCK_SIZE) * BLOCK_SIZE :=
      Nat.mul_le_mul_right _ h1n
  refine ⟨by omega, by omega, h1n⟩

/-- The data-writing loop stores `chunkAt data j` (zero padded) into the
block attached at each ordinal position `j` it visits, and touches no other
block, provided the visited positions hold pairwise distinct non-negative
block indices. -/
theorem writeDataBlocks_disk (inum : Nat) (data : List Nat) :
    ∀ (k i : Nat) (fs : FileSystem),
      (∀ j, i ≤ j → j < i + k → (fs.inodes inum).blocks j ≠ -1) →
      (∀ j1 j2, i ≤ j1 → j1 < i + k → i ≤ j2 → j2 < i + k → j1 ≠ j2 →
        (fs.inodes inum).blocks j1 ≠ (fs.inodes inum).blocks j2) →
      (∀ j, i ≤ j → j < i + k → 0 ≤ (fs.inodes inum).blocks j) →
      (∀ j, i ≤ j → j < i + k → ∀ off,
        (writeDataBlocks fs inum data (data.length - i * BLOCK_SIZE) (List.range' i k)).disk
          ((fs.inodes inum).blocks j).toNat off = (chunkAt data j).getD off 0) ∧
      (∀ b, (∀ j, i ≤ j → j < i + k → b ≠ ((fs.inodes inum).blocks j).toNat) →
        (writeDataBlocks fs inum data (data.length - i * BLOCK_SIZE) (List.range' i k)).disk b =
          fs.disk b) := by
  intro k
  induction k with
  | zero =>
    intro i fs _ _ _
    exact ⟨fun j hj1 hj2 => by omega, fun b _ => rfl⟩
  | succ k ih =>
    intro i fs hne hdis hnn
    rw [List.range'_succ]
    have hnei : (fs.inodes inum).blocks i ≠ -1 := hne i (Nat.le_refl i) (by omega)
    have harith : ∀ L t B : Nat, L - t - min (L - t) B = L - (t + B) := by
      intro L t B
      omega
    have hmul : (i + 1) * BLOCK_SIZE = i * BLOCK_SIZE + BLOCK_SIZE := by ring
    have hstep :
        writeDataBlocks fs inum data (data.length - i * BLOCK_SIZE) (i :: List.range' (i + 1) k) =
          writeDataBlocks
            { fs with
                disk := writeChunk fs.disk ((fs.inodes inum).blocks i).toNat (chunkAt data i) }
            inum data (data.length - (i + 1) * BLOCK_SIZE) (List.range' (i + 1) k) := by
      simp only [writeDataBlocks]
      rw [if_neg hnei]
      rw [show data.length - i * BLOCK_SIZE - min (data.length - i * BLOCK_SIZE) BLOCK_SIZE =
        data.length - (i + 1) * BLOCK_SIZE from by rw [hmul]; exact harith _ _ _]
      rfl
    rw [hstep]
    obtain ⟨ihA, ihB⟩ := ih (i + 1)
      { fs with
          disk := writeChunk fs.disk ((fs.inodes inum).blocks i).toNat (chunkAt data i) }
      (fun j h1 h2 => hne j (by omega) (by omega))
      (fun j1 j2 h1 h2 h3 h4 h5 => hdis j1 j2 (by omega) (by omega) (by omega) (by omega) h5)
      (fun j h1 h2 => hnn j (by omega) (by omega))
    have htoNat_ne : ∀ j, i + 1 ≤ j → j < i + (k + 1) →
        ((fs.inodes inum).blocks i).toNat ≠ ((fs.inodes inum).blocks j).toNat := by
      intro j h1 h2 hc
      apply hdis i j (Nat.le_refl i) (by omega) (by omega) (by omega) (by omega)
      rw [← Int.toNat_of_nonneg (hnn i (Nat.le_refl i) (by omega)),
        ← Int.toNat_of_nonneg (hnn j (by omega) (by omega)), hc]
    constructor
    · intro j hj1 hj2 off
      by_cases hji : j = i
      · subst hji
        rw [ihB ((fs.inodes inum).blocks j).toNat (fun j2 h1 h2 => htoNat_ne j2 h1 (by omega))]
        exact writeChunk_self fs.disk _ (chunkAt data j) off
      · exact ihA j (by omega) (by omega) off
    · intro b hb
      rw [ihB b (fun j h1 h2 => hb j (by omega) (by omega))]
      exact writeChunk_other fs.disk _ (chunkAt data i) b (hb i (Nat.le_refl i) (by omega))

/-- When `bytes_read` has already reached `size`, the read loop stops. -/
theorem readLoop_stop (fs : FileSystem) (ino : Inode) (br : Nat) (l : List Nat)
    (h : ino.size ≤ br) : readLoop fs ino br l = [] := by
  cases l with
  | nil => rfl
  | cons i rest =>
    simp only [readLoop]
    rw [if_neg (Nat.not_lt.mpr h)]

/-- The read loop, started at ordinal `i` with `bytes_read = i * BLOCK_SIZE`,
returns exactly the remaining content `data.drop (i * BLOCK_SIZE)`, provided
the first `ceil(len/BLOCK_SIZE)` positions hold blocks whose stored content
is the corresponding chunk of `data`. -/
theorem readLoop_spec (data : List Nat) (ino : Inode) (fs : FileSystem)
    (hsize : ino.size = data.length) (hpos : 0 < data.length)
    (hn : (data.length + BLOCK_SIZE - 1) / BLOCK_SIZE ≤ NUM_PTRS)
    (hne : ∀ j, j < (data.length + BLOCK_SIZE - 1) / BLOCK_SIZE → ino.blocks j ≠ -1)
    (hdisk : ∀ j, j < (data.length + BLOCK_SIZE - 1) / BLOCK_SIZE → ∀ off,
      fs.disk (ino.blocks j).toNat off = (chunkAt data j).getD off 0) :
    ∀ (k i : Nat), i + k = NUM_PTRS →
      readLoop fs ino (i * BLOCK_SIZE) (List.range' i k) = data.drop (i * BLOCK_SIZE) := by
  obtain ⟨hfit, hover, h1n⟩ := ceil_blocks_facts data.length hpos
  intro k
  induction k with
  | zero =>
    intro i hik
    have hlenle : data.length ≤ i * BLOCK_SIZE := by
      calc data.length ≤ ((data.length + BLOCK_SIZE - 1) / BLOCK_SIZE) * BLOCK_SIZE := hfit
      _ ≤ i * BLOCK_SIZE := Nat.mul_le_mul_right _ (by omega)
    rw [List.drop_eq_nil_of_le hlenle]
    rfl
  | succ k ih =>
    intro i hik
    rw [List.range'_succ]
    by_cases hin : i < (data.length + BLOCK_SIZE - 1) / BLOCK_SIZE
    · have hbr : i * BLOCK_SIZE < data.length := by
        calc i * BLOCK_SIZE ≤ (((data.length + BLOCK_SIZE - 1) / BLOCK_SIZE) - 1) * BLOCK_SIZE :=
          Nat.mul_le_mul_right _ (by omega)
        _ < data.length := hover
      simp only [readLoop]
      rw [if_pos (by rw [hsize]; exact hbr), if_neg (hne i hin)]
      have hchunk : (List.range (min (ino.size - i * BLOCK_SIZE) BLOCK_SIZE)).map
          (fun off => fs.disk (ino.blocks i).toNat off) = chunkAt data i := by
        have hcl : (chunkAt data i).length = min (ino.size - i * BLOCK_SIZE) BLOCK_SIZE := by
          rw [chunkAt_length, hsize]
        rw [← hcl, List.map_congr_left (fun off _ => hdisk i hin off), map_range_getD]
      rw [hchunk]
      by_cases hfull : BLOCK_SIZE ≤ data.length - i * BLOCK_SIZE
      · have hcopy : min (ino.size - i * BLOCK_SIZE) BLOCK_SIZE = BLOCK_SIZE := by
          rw [hsize]
          omega
        have hnext : i * BLOCK_SIZE + BLOCK_SIZE = (i + 1) * BLOCK_SIZE := by ring
        rw [hcopy, hnext, ih (i + 1) (by omega)]
        exact (drop_chunk_split data i).symm
      · have hcopy : min (ino.size - i * BLOCK_SIZE) BLOCK_SIZE =
            data.length - i * BLOCK_SIZE := by
          rw [hsize]
          omega
        have hstop : readLoop fs ino (i * BLOCK_SIZE + (data.length - i * BLOCK_SIZE))
            (List.range' (i + 1) k) = [] := by
          apply readLoop_stop
          rw [hsize]
          omega
        rw [hcopy, hstop]
        have hnil : data.drop ((i + 1) * BLOCK_SIZE) = [] := by
          apply List.drop_eq_nil_of_le
          have : (i + 1) * BLOCK_SIZE = i * BLOCK_SIZE + BLOCK_SIZE := by ring
          omega
        conv_rhs => rw [drop_chunk_split data i, hnil]
    · have hlenle : data.length ≤ i * BLOCK_SIZE := by
        calc data.length ≤ ((data.length + BLOCK_SIZE - 1) / BLOCK_SIZE) * BLOCK_SIZE := hfit
        _ ≤ i * BLOCK_SIZE := Nat.mul_le_mul_right _ (by omega)
      rw [readLoop_stop fs ino _ _ (by rw [hsize]; omega), List.drop_eq_nil_of_le hlenle]

/-- C1: on any state satisfying the mounted-state data-model invariant
(`Inv`, which `Inv_run` establishes for every state a session reaches from
the formatted image), for any name present in the inode table and any
content of length at most `10 * block_size`, a successful
`fs_write_file(name, data)` followed immediately by `fs_read_file(name)`
returns exactly `data`. -/
theorem claim_C1_write_read_roundtrip (fs : FileSystem) (name : String) (data : List Nat)
    (hInv : Inv fs)
    (hfound : fs_find_inode fs name ≠ -1)
    (hlen : data.length ≤ MAX_FILE_SIZE)
    (hsucc : (fs_write_file fs name data).1 = 0) :
    fs_read_file (fs_write_file fs name data).2 name = some data := by
  rcases fs_find_inode_cases fs name with hf | ⟨k, hk, hklt, hkname, _⟩
  · exact absurd hf hfound
  have hnle : (data.length + BLOCK_SIZE - 1) / BLOCK_SIZE ≤ NUM_PTRS := blocks_needed_le hlen
  by_cases hA :
    (allocBlocks fs k (List.range ((data.length + BLOCK_SIZE - 1) / BLOCK_SIZE))).1 = true
  case neg =>
    have hf2 :
        (allocBlocks fs k (List.range ((data.length + BLOCK_SIZE - 1) / BLOCK_SIZE))).1 =
          false := by
      simpa using hA
    rw [fs_write_file_fail_eq fs name data k hk hlen hf2] at hsucc
    exact absurd hsucc (by norm_num)
  case pos =>
  have hEq := fs_write_file_succ_eq fs name data k hk hlen hA
  obtain ⟨m1, m2, m3, m4, m5, m6, m7, m8, m9, m10, m11, m12, m13, m14, m15⟩ :=
    allocBlocks_facts k (List.range ((data.length + BLOCK_SIZE - 1) / BLOCK_SIZE)) fs
  have hInvA :
      Inv (allocBlocks fs k (List.range ((data.length + BLOCK_SIZE - 1) / BLOCK_SIZE))).2 := by
    rw [List.range_eq_range']
    exact allocBlocks_inv k _ 0 fs hInv (fun j hj => absurd hj (Nat.not_lt_zero j))
  set n := (data.length + BLOCK_SIZE - 1) / BLOCK_SIZE with hn
  set fsA := (allocBlocks fs k (List.range n)).2 with hfsA
  set W := writeDataBlocks fsA k data data.length (List.range n) with hW
  have hWino : W.inodes = fsA.inodes := by
    rw [hW]
    exact writeDataBlocks_inodes k data (List.range n) fsA data.length
  have hAname : (fsA.inodes k).name ≠ "" := by
    rw [m3]
    exact hkname
  have hfilled : ∀ j, j < n → (fsA.inodes k).blocks j ≠ -1 := by
    intro j hj
    exact m13 hA j (List.mem_range.mpr hj)
  have hdistinct : ∀ j1 j2, j1 < n → j2 < n → j1 ≠ j2 →
      (fsA.inodes k).blocks j1 ≠ (fsA.inodes k).blocks j2 := by
    intro j1 j2 hj1 hj2 hne12
    exact hInvA.inj k j1 k j2 hklt hklt (by omega) (by omega) hAname hAname
      (hfilled j1 hj1) (hfilled j2 hj2) (fun hc => hne12 hc.2)
  have hnonneg : ∀ j, j < n → 0 ≤ (fsA.inodes k).blocks j := by
    intro j hj
    obtain ⟨hds, _, _⟩ :=
      hInvA.range_used k hklt hAname j (by omega) (hfilled j hj)
    have : (0 : Int) ≤ (fsA.super.data_start : Int) := Int.natCast_nonneg _
    omega
  obtain ⟨wdA, _⟩ := writeDataBlocks_disk k data n 0 fsA
    (fun j _ hj => hfilled j (by omega))
    (fun j1 j2 _ hj1 _ hj2 hne12 => hdistinct j1 j2 (by omega) (by omega) hne12)
    (fun j _ hj => hnonneg j (by omega))
  have hWdisk : ∀ j, j < n → ∀ off,
      W.disk ((fsA.inodes k).blocks j).toNat off = (chunkAt data j).getD off 0 := by
    intro j hj off
    have hres := wdA j (Nat.zero_le j) (by omega) off
    simp only [Nat.zero_mul, Nat.sub_zero] at hres
    rw [← List.range_eq_range'] at hres
    rw [hW]
    exact hres
  rw [hEq]
  simp only [fs_read_file]
  have hSnames : ∀ i, i < MAX_INODES →
      (({ W with
          inodes := Function.update W.inodes k
            { W.inodes k with size := data.length } }).inodes i).name =
        (fs.inodes i).name := by
    intro i hi
    dsimp only
    by_cases hik : i = k
    · subst hik
      rw [Function.update_same]
      dsimp only
      rw [hWino]
      exact m3
    · rw [Function.update_noteq hik, hWino, m2 i hik]
  have hfindS :
      fs_find_inode
        { W with
          inodes := Function.update W.inodes k { W.inodes k with size := data.length } }
        name = (k : Int) :=
    (fs_find_inode_congr fs _ name hSnames).trans hk
  rw [hfindS, if_neg (by omega : ¬(k : Int) = -1), Int.toNat_natCast]
  rw [Function.update_same]
  dsimp only
  by_cases hlen0 : data.length = 0
  · rw [if_pos hlen0, List.eq_nil_of_length_eq_zero hlen0]
  · rw [if_neg hlen0]
    have hpos : 0 < data.length := Nat.pos_of_ne_zero hlen0
    have hrl := readLoop_spec data
      { name := (W.inodes k).name, size := data.length, blocks := (W.inodes k).blocks }
      { super := W.super,
        inodes := Function.update W.inodes k
          { name := (W.inodes k).name, size := data.length, blocks := (W.inodes k).blocks },
        bitmap := W.bitmap, disk := W.disk }
      rfl hpos hnle
      (by
        intro j hj
        dsimp only
        rw [hWino]
        exact hfilled j hj)
      (by
        intro j hj off
        dsimp only
        rw [hWino]
        exact hWdisk j hj off)
      NUM_PTRS 0 (by omega)
    rw [Nat.zero_mul, List.drop_zero, ← List.range_eq_range'] at hrl
    rw [hrl]

/-- Witness for C1: on the session state with file `"a"` created, writing
the two bytes `[104, 105]` and reading them back returns exactly them. -/
theorem claim_C1_witness :
    fs_find_inode (run fs_init [Op.create "a"]) "a" ≠ -1 ∧
    ([104, 105] : List Nat).length ≤ MAX_FILE_SIZE ∧
    (fs_write_file (run fs_init [Op.create "a"]) "a" [104, 105]).1 = 0 ∧
    fs_read_file (fs_write_file (run fs_init [Op.create "a"]) "a" [104, 105]).2 "a" =
      some [104, 105] :=
  ⟨by decide, by decide, by decide,
   claim_C1_write_read_roundtrip (run fs_init [Op.create "a"]) "a" [104, 105]
     (Inv_run [Op.create "a"]) (by decide) (by decide) (by decide)⟩

/-- C9: across any operation sequence the superblock's `free_blocks`
counter never increases; `create`, `read` and `list` leave it unchanged,
and a `write` decreases it by exactly the number of blocks newly allocated
during that call (one decrement per allocation, no increment path). -/
theorem claim_C9_free_blocks_monotone :
    (∀ fs name, (step fs (Op.create name)).super.free_blocks = fs.super.free_blocks) ∧
    (∀ fs name, (step fs (Op.read name)).super.free_blocks = fs.super.free_blocks) ∧
    (∀ fs : FileSystem, (step fs Op.list).super.free_blocks = fs.super.free_blocks) ∧
    (∀ fs name data,
      fs.super.free_blocks - (step fs (Op.write name data)).super.free_blocks =
        (countNew fs (step fs (Op.write name data)) (fs_find_inode fs name).toNat : Int)) ∧
    (∀ (fs : FileSystem) (ops : List Op),
      (run fs ops).super.free_blocks ≤ fs.super.free_blocks) :=
  ⟨fun fs name => by simp only [step]; rw [fs_create_file_super],
   fun _ _ => rfl,
   fun _ => rfl,
   fun fs name data => fs_write_file_free_eq fs name data,
   fun fs ops => run_free_blocks_le ops fs⟩

end TinyFS
